import Mathlib

/-!
Verification of the wilayah-indonesia region-search service.

The development shallowly embeds, in Lean, the parts of the repository that
the specification describes:

* the query normalizer `sanitizeQuery` (pkg/service/service.go),
* the Jaro-Winkler similarity scorer (modelled from the specification, since
  the repository calls DuckDB's built-in `jaro_winkler_similarity`),
* the denormalization transform of cmd/ingestor/main.go (the SQL
  `CREATE TABLE regions AS SELECT ... JOIN ... LEFT JOIN ...` query),
* the six search operations of pkg/service/service.go, with the SQL
  `WHERE ... ORDER BY ... LIMIT 10` bodies embedded as
  filter / sort / take over a list of rows, and the row-scanning step
  `scanRegions` (Go database/sql fails when a SQL NULL is scanned into a
  plain Go `string`, which the embedding makes explicit).

Machine strings are modelled as Lean `String` / `List Char`; similarity
scores are exact rationals.
-/

namespace Wilayah

/-! ### Character helpers (ASCII, as in the Go source) -/

/-- One character of Go `strings.ToLower` (Unicode simple case mapping),
restricted to what the sanitizer's filter `[a-zA-Z0-9 ]` can observe:
`A`-`Z` map into `a`-`z`, and the only two non-ASCII characters whose
simple lowercase mapping lands in ASCII — U+0130 (Latin capital I with dot
above, to `i`) and U+212A (Kelvin sign, to `k`) — map there too.  Every
other character maps, in Go, to a character that is non-ASCII exactly when
the original is, so keeping it unchanged is observationally equivalent
through the filter. -/
def lowerChar (c : Char) : Char :=
  if 'A' ≤ c ∧ c ≤ 'Z' then Char.ofNat (c.toNat + 32)
  else if c = Char.ofNat 0x130 then 'i'
  else if c = Char.ofNat 0x212A then 'k'
  else c

/-- ASCII uppercase of one character, as Go `unicode.ToTitle` acts on the
ASCII range. -/
def upperChar (c : Char) : Char :=
  if 'a' ≤ c ∧ c ≤ 'z' then Char.ofNat (c.toNat - 32) else c

/-- Membership in the character class `[a-zA-Z0-9 ]` kept by the sanitizer's
regular expression `[^a-zA-Z0-9 ]+` (whose matches are deleted). -/
def isAllowedChar (c : Char) : Bool :=
  ('a' ≤ c && c ≤ 'z') || ('A' ≤ c && c ≤ 'Z') || ('0' ≤ c && c ≤ '9') || c = ' '

/-- Go `isSeparator` (used by `strings.Title`), restricted to the ASCII
range: letters, digits and underscore are not separators, everything else
(in particular the space) is. -/
def goIsSeparator (c : Char) : Bool :=
  !(('a' ≤ c && c ≤ 'z') || ('A' ≤ c && c ≤ 'Z') || ('0' ≤ c && c ≤ '9') || c = '_')

/-! ### The query normalizer (`sanitizeQuery` in pkg/service/service.go) -/

/-- `strings.Title`: map each character, uppercasing it when the previous
character (initially a space) is a separator. -/
def goTitleAux (prev : Char) : List Char → List Char
  | [] => []
  | c :: cs => (if goIsSeparator prev then upperChar c else c) :: goTitleAux c cs

def goTitle (l : List Char) : List Char := goTitleAux ' ' l

/-- `strings.TrimSpace` on strings whose only whitespace is the ASCII
space: drop spaces from both ends. -/
def trimSpaces (l : List Char) : List Char :=
  ((l.dropWhile (· = ' ')).reverse.dropWhile (· = ' ')).reverse

/-- The sanitizer of pkg/service/service.go: lowercase, delete every
character outside `[a-zA-Z0-9 ]`, `strings.Title`, trim. -/
def sanitizeList (l : List Char) : List Char :=
  trimSpaces (goTitle ((l.map lowerChar).filter isAllowedChar))

/-- `sanitizeQuery` from pkg/service/service.go, on `String`. -/
def sanitizeQuery (s : String) : String := ⟨sanitizeList s.data⟩

/-! Spec-side restatement of the normalizer, used to check claim C6:
title case is described there as capitalizing the first letter of every
whitespace-delimited token. -/

/-- Modelled from the spec: "capitalize the first letter of every
whitespace-delimited token, keep the rest"; `atStart` records whether the
next character begins a token. -/
def specTitleAux (atStart : Bool) : List Char → List Char
  | [] => []
  | c :: cs =>
      if c = ' ' then c :: specTitleAux true cs
      else (if atStart then upperChar c else c) :: specTitleAux false cs

/-- Modelled from the spec: the four normalization steps of §4.2 word for
word — lowercase, delete every character that is not an ASCII letter, digit
or space, capitalize the first letter of every whitespace-delimited token,
trim. -/
def specNormalize (s : String) : String :=
  ⟨trimSpaces (specTitleAux true ((s.data.map lowerChar).filter isAllowedChar))⟩

/-! The two title-case functions agree on filtered strings: after the
filter, the only separator character left is the space. -/

def matchWindow (la lb : Nat) : Nat := max la lb / 2 - 1

/-- The smallest index `j` of `b` such that `b` has character `c` at `j`,
`j` is not already consumed (`used`), and `j` is within `w` positions of
`i`. -/
def findCand (b : List Char) (used : List Nat) (c : Char) (i w : Nat) :
    Option Nat :=
  (List.range b.length).find? fun j =>
    decide (b.get? j = some c) && !(used.contains j) &&
      decide (i ≤ j + w) && decide (j ≤ i + w)

/-- Modelled from the spec: greedy left-to-right matching.  Walk the
characters of `a` (the current one sitting at index `i`); each one grabs
the smallest not-yet-consumed index of `b` holding the same character
within the window, if any. -/
def greedyAux (b : List Char) (w : Nat) : List Char → Nat → List Nat →
    List (Nat × Nat)
  | [], _, _ => []
  | c :: as, i, used =>
    match findCand b used c i w with
    | some j => (i, j) :: greedyAux b w as (i + 1) (j :: used)
    | none => greedyAux b w as (i + 1) used

/-- The list of matched index pairs `(i, j)` (`a`-index, `b`-index),
produced in increasing order of `i`. -/
def matchPairs (a b : List Char) : List (Nat × Nat) :=
  greedyAux b (matchWindow a.length b.length) a 0 []

/-- `m` of §4.3: the number of matching characters. -/
def matchCount (a b : List Char) : Nat := (matchPairs a b).length

/-- The matched characters of `a`, in `a`-order (the greedy emits pairs in
increasing `a`-index order already). -/
def matchedLeft (a b : List Char) : List Char :=
  (matchPairs a b).map fun p => a.getD p.1 ' '

/-- The matched characters of `b`, in `b`-order (sort the pairs by their
`b`-index first). -/
def matchedRight (a b : List Char) : List Char :=
  ((matchPairs a b).insertionSort fun p q => p.2 ≤ q.2).map fun p =>
    b.getD p.2 ' '

/-- The number of positions at which two equally long sequences differ. -/
def mismatches : List Char → List Char → Nat
  | x :: xs, y :: ys => (if x = y then 0 else 1) + mismatches xs ys
  | _, _ => 0

/-- `t` of §4.3: matched pairs in different relative order, divided by two
(kept exact as a rational). -/
def transpositions (a b : List Char) : ℚ :=
  (mismatches (matchedLeft a b) (matchedRight a b) : ℚ) / 2

/-- The Jaro similarity of §4.3. -/
def jaro (a b : List Char) : ℚ :=
  let m : ℚ := (matchCount a b : ℚ)
  if m = 0 then 0
  else (1 / 3) * (m / (a.length : ℚ) + m / (b.length : ℚ) +
    (m - transpositions a b) / m)

/-- The length of the common leading run of `a` and `b`, capped at 4. -/
def commonStartLen : List Char → List Char → Nat
  | x :: xs, y :: ys => if x = y then commonStartLen xs ys + 1 else 0
  | _, _ => 0

/-- Modelled from the spec: Jaro-Winkler similarity (§4.3), with scaling
factor `p = 1/10`, common-prefix bonus capped at 4, and the two-empty-string
case defined as 1. -/
def jaroWinkler (a b : List Char) : ℚ :=
  if a = [] ∧ b = [] then 1
  else
    let jr := jaro a b
    jr + (min (commonStartLen a b) 4 : ℚ) * (1 / 10) * (1 - jr)

/-- Jaro-Winkler on `String`, the form the search operations use. -/
def jwStr (a b : String) : ℚ := jaroWinkler a.data b.data

/-- The `b`-positions still available for character `c`: indices of `b`
holding `c` that are not in `used`, in increasing order. -/
def availOf (c : Char) (b : List Char) (used : List Nat) : List Nat :=
  (List.range b.length).filter fun j =>
    decide (b.get? j = some c) && !(used.contains j)

/-- The positions at which `c` occurs in a list whose first element sits at
overall index `i`. -/
def posnsFrom (c : Char) : List Char → Nat → List Nat
  | [], _ => []
  | x :: xs, i =>
      if x = c then i :: posnsFrom c xs (i + 1) else posnsFrom c xs (i + 1)

/-- One-character greedy matching, merge-style: walk two increasing
position lists; a left position pairs with the smallest right position
within the window, right positions more than `w` below the current left
position being discarded for good. -/
def pairMerge (w : Nat) : List Nat → List Nat → List (Nat × Nat)
  | [], _ => []
  | _ :: _, [] => []
  | i :: is, j :: js =>
    if j + w < i then pairMerge w (i :: is) js
    else if i + w < j then pairMerge w is (j :: js)
    else (i, j) :: pairMerge w is js
termination_by A B => A.length + B.length
decreasing_by all_goals simp_arith

/-! ### Structural facts about the greedy matching -/

structure FlatRegion where
  id : String
  subdistrict : String
  district : String
  city : String
  province : String
  postal_code : Option String
  full_text : String
deriving DecidableEq, Repr

/-- `Region` from pkg/service/service.go: all fields are plain Go
strings, including `PostalCode`. -/
structure Region where
  id : String
  subdistrict : String
  district : String
  city : String
  province : String
  postal_code : String
  full_text : String
deriving DecidableEq, Repr

/-- Modelled from the spec: the closed error enumeration of §7 with the
constructor names of the service's error codes (`errors.go` is referenced
by service.go and internal/api/handler.go but absent from the sources, so
the spec's tagged enumeration stands in). -/
inductive ErrCode where
  | invalidInput
  | notFound
  | databaseFailure
deriving DecidableEq, Repr

/-- One row of `rows.Scan` in `scanRegions`: Go `database/sql` cannot
store a NULL `postal_code` into the plain `string` field of `Region`
(`convertAssign` fails on a nil `driver.Value`), so a NULL row aborts the
scan with a database failure. -/
def scanRegion (r : FlatRegion) : Except ErrCode Region :=
  match r.postal_code with
  | some pc =>
      Except.ok ⟨r.id, r.subdistrict, r.district, r.city, r.province, pc,
        r.full_text⟩
  | none => Except.error ErrCode.databaseFailure

/-- `scanRegions` from pkg/service/service.go: convert the fetched rows
one by one, stopping at the first scan error. -/
def scanRegions : List FlatRegion → Except ErrCode (List Region)
  | [] => Except.ok []
  | r :: rs => do
      let reg ← scanRegion r
      let regs ← scanRegions rs
      pure (reg :: regs)

/-- `isNumeric` from pkg/service/service.go. -/
def isNumeric (s : String) : Bool :=
  s.data.all fun c => '0' ≤ c && c ≤ '9'

/-- Case-insensitive substring containment: DuckDB
`full_text ILIKE '%' || q || '%'` (the sanitized query contains no
wildcard characters). -/
def containsCI (text pat : String) : Bool :=
  decide ((pat.data.map lowerChar) <:+: (text.data.map lowerChar))

/-- Ascending `ORDER BY full_text` (DuckDB's binary collation, i.e.
lexicographic code-point order). -/
def fullTextLe (r q : FlatRegion) : Prop := r.full_text ≤ q.full_text

instance : DecidableRel fullTextLe := fun r q =>
  inferInstanceAs (Decidable (r.full_text ≤ q.full_text))

/-- `Search` from pkg/service/service.go: reject an empty query, sanitize,
then `WHERE full_text ILIKE '%' || ? || '%' ORDER BY full_text LIMIT 10`
and scan the fetched rows. -/
def Search (store : List FlatRegion) (query : String) :
    Except ErrCode (List Region) :=
  if query = "" then Except.error ErrCode.invalidInput
  else
    scanRegions (List.take 10 (List.insertionSort fullTextLe
      (List.filter
        (fun r : FlatRegion => containsCI r.full_text (sanitizeQuery query))
        store)))

/-- Descending `ORDER BY jaro_winkler_similarity (field, ?) DESC`. -/
def simDescBy (key : FlatRegion → ℚ) (r q : FlatRegion) : Prop :=
  key q ≤ key r

instance (key : FlatRegion → ℚ) : DecidableRel (simDescBy key) := fun r q =>
  inferInstanceAs (Decidable (key q ≤ key r))

/-- `SearchByDistrict` from pkg/service/service.go:
`WHERE jaro_winkler_similarity (district, ?) >= 0.8
 ORDER BY jaro_winkler_similarity (district, ?) DESC LIMIT 10`. -/
def SearchByDistrict (store : List FlatRegion) (query : String) :
    Except ErrCode (List Region) :=
  if query = "" then Except.error ErrCode.invalidInput
  else
    scanRegions (List.take 10 (List.insertionSort
      (simDescBy fun r : FlatRegion => jwStr r.district (sanitizeQuery query))
      (List.filter
        (fun r : FlatRegion =>
          decide ((4 : ℚ) / 5 ≤ jwStr r.district (sanitizeQuery query)))
        store)))

/-- `SearchBySubdistrict` from pkg/service/service.go. -/
def SearchBySubdistrict (store : List FlatRegion) (query : String) :
    Except ErrCode (List Region) :=
  if query = "" then Except.error ErrCode.invalidInput
  else
    scanRegions (List.take 10 (List.insertionSort
      (simDescBy fun r : FlatRegion =>
        jwStr r.subdistrict (sanitizeQuery query))
      (List.filter
        (fun r : FlatRegion =>
          decide ((4 : ℚ) / 5 ≤ jwStr r.subdistrict (sanitizeQuery query)))
        store)))

/-- `SearchByProvince` from pkg/service/service.go. -/
def SearchByProvince (store : List FlatRegion) (query : String) :
    Except ErrCode (List Region) :=
  if query = "" then Except.error ErrCode.invalidInput
  else
    scanRegions (List.take 10 (List.insertionSort
      (simDescBy fun r : FlatRegion => jwStr r.province (sanitizeQuery query))
      (List.filter
        (fun r : FlatRegion =>
          decide ((4 : ℚ) / 5 ≤ jwStr r.province (sanitizeQuery query)))
        store)))

/-- The two-key descending order of the city search:
`ORDER BY jaro_winkler_similarity (city, 'Kota ' || ?) DESC,
 jaro_winkler_similarity (city, 'Kabupaten ' || ?) DESC`. -/
def cityOrder (kota kab : FlatRegion → ℚ) (r q : FlatRegion) : Prop :=
  kota q < kota r ∨ (kota q = kota r ∧ kab q ≤ kab r)

instance (kota kab : FlatRegion → ℚ) :
    DecidableRel (cityOrder kota kab) := fun r q =>
  inferInstanceAs (Decidable (_ ∨ _))

/-- `SearchByCity` from pkg/service/service.go:
`WHERE jaro_winkler_similarity (city, 'Kota ' || ?) >= 0.8
    OR jaro_winkler_similarity (city, 'Kabupaten ' || ?) >= 0.8`,
ordered by the two similarities descending, `LIMIT 10`. -/
def SearchByCity (store : List FlatRegion) (query : String) :
    Except ErrCode (List Region) :=
  if query = "" then Except.error ErrCode.invalidInput
  else
    scanRegions (List.take 10 (List.insertionSort
      (cityOrder
        (fun r : FlatRegion => jwStr r.city ("Kota " ++ sanitizeQuery query))
        (fun r : FlatRegion =>
          jwStr r.city ("Kabupaten " ++ sanitizeQuery query)))
      (List.filter
        (fun r : FlatRegion =>
          decide ((4 : ℚ) / 5 ≤
            jwStr r.city ("Kota " ++ sanitizeQuery query)) ||
          decide ((4 : ℚ) / 5 ≤
            jwStr r.city ("Kabupaten " ++ sanitizeQuery query)))
        store)))

/-- `SearchByPostalCode` from pkg/service/service.go: reject an empty or
non-5-digit input, `WHERE postal_code = ? ORDER BY full_text LIMIT 10`
(SQL `=` never matches NULL), and fail with NotFound on zero rows. -/
def SearchByPostalCode (store : List FlatRegion) (postalCode : String) :
    Except ErrCode (List Region) :=
  if postalCode = "" then Except.error ErrCode.invalidInput
  else if ¬ (postalCode.length = 5 ∧ isNumeric postalCode = true) then
    Except.error ErrCode.invalidInput
  else
    match scanRegions (List.take 10 (List.insertionSort fullTextLe
      (List.filter
        (fun r : FlatRegion => decide (r.postal_code = some postalCode))
        store))) with
    | Except.error e => Except.error e
    | Except.ok results =>
        if results.length = 0 then Except.error ErrCode.notFound
        else Except.ok results

/-- The `Region` produced by a successful scan of one row: the NULL-free
case of `scanRegion`. -/
def toRegion (r : FlatRegion) : Region :=
  ⟨r.id, r.subdistrict, r.district, r.city, r.province,
    r.postal_code.getD "", r.full_text⟩

structure RawRegion where
  kode : String
  nama : String
deriving DecidableEq, Repr

/-- A row of the raw `wilayah_kodepos` table. -/
structure RawPostal where
  kode : String
  kodepos : String
deriving DecidableEq, Repr

/-- ASCII lowercase of a whole string (SQL `LOWER`). -/
def lowerStr (s : String) : String := ⟨s.data.map lowerChar⟩

/-- The LEFT JOIN with `wilayah_kodepos` on exact code equality: one output
per matching postal row, or a single NULL when none matches. -/
def postalJoin (kodepos : List RawPostal) (sub : RawRegion) :
    List (Option String) :=
  match kodepos.filter fun k => k.kode = sub.kode with
  | [] => [none]
  | ks => ks.map fun k => some k.kodepos

/-- The transformation query of cmd/ingestor/main.go: for every raw record
whose code has 13 characters, INNER JOIN the district, city and province by
code prefix, LEFT JOIN the postal table, and emit one denormalized row per
join combination. -/
def ingest (wilayah : List RawRegion) (kodepos : List RawPostal) :
    List FlatRegion :=
  (wilayah.filter fun sub => sub.kode.length = 13).flatMap fun sub =>
    (wilayah.filter fun dist => dist.kode = sub.kode.take 8).flatMap fun dist =>
      (wilayah.filter fun city => city.kode = sub.kode.take 5).flatMap
        fun city =>
        (wilayah.filter fun prov => prov.kode = sub.kode.take 2).flatMap
          fun prov =>
          (postalJoin kodepos sub).map fun pc =>
            { id := sub.kode
              subdistrict := sub.nama
              district := dist.nama
              city := city.nama
              province := prov.nama
              postal_code := pc
              full_text := lowerStr (prov.nama ++ " " ++ city.nama ++ " " ++
                dist.nama ++ " " ++ sub.nama) }

theorem isAllowedChar_goIsSeparator (c : Char) (h : isAllowedChar c = true) :
    goIsSeparator c = (c = ' ' : Bool) := by
  unfold isAllowedChar at h
  unfold goIsSeparator
  simp only [Bool.or_eq_true, Bool.and_eq_true, decide_eq_true_eq] at h
  rcases h with ((h | h) | h) | h
  · have hne : ¬ c = ' ' := by rintro rfl; exact absurd h.1 (by decide)
    simp [h.1, h.2, hne]
  · have hne : ¬ c = ' ' := by rintro rfl; exact absurd h.1 (by decide)
    simp [h.1, h.2, hne]
  · have hne : ¬ c = ' ' := by rintro rfl; exact absurd h.1 (by decide)
    simp [h.1, h.2, hne]
  · subst h; decide

theorem goTitleAux_eq_specTitleAux (l : List Char) :
    ∀ prev : Char, isAllowedChar prev = true →
      (∀ c ∈ l, isAllowedChar c = true) →
      goTitleAux prev l = specTitleAux (prev = ' ' : Bool) l := by
  induction l with
  | nil => intro prev _ _; rfl
  | cons c cs ih =>
      intro prev hprev hall
      have hc : isAllowedChar c = true := hall c (List.mem_cons_self c cs)
      have hcs : ∀ x ∈ cs, isAllowedChar x = true :=
        fun x hx => hall x (List.mem_cons_of_mem c hx)
      unfold goTitleAux specTitleAux
      rw [isAllowedChar_goIsSeparator prev hprev, ih c hc hcs]
      have hup : upperChar ' ' = ' ' := by decide
      by_cases hcsp : c = ' '
      · subst hcsp
        by_cases hpsp : prev = ' ' <;> simp [hpsp, hup]
      · by_cases hpsp : prev = ' ' <;> simp [hpsp, hcsp]

/-- The sanitizer equals the spec's four-step description, on every input. -/
theorem sanitizeQuery_eq_specNormalize (s : String) :
    sanitizeQuery s = specNormalize s := by
  unfold sanitizeQuery specNormalize sanitizeList goTitle
  have h := goTitleAux_eq_specTitleAux ((s.data.map lowerChar).filter isAllowedChar)
    ' ' (by decide) (fun c hc => List.of_mem_filter hc)
  rw [h]
  simp

/-! ### The Jaro-Winkler similarity scorer

Modelled from the spec: the repository itself calls DuckDB's built-in
`jaro_winkler_similarity`; §4.3 of the specification defines the algorithm
in full, and the definitions below follow its words.  Scores are exact
rationals. -/

/-- The matching window of §4.3: `max (len a) (len b) / 2 - 1` (truncated
subtraction, so a window of at least `0`). -/
theorem findCand_eq_some {b : List Char} {used : List Nat} {c : Char}
    {i w j : Nat} (h : findCand b used c i w = some j) :
    b.get? j = some c ∧ used.contains j = false ∧ i ≤ j + w ∧ j ≤ i + w ∧
      j < b.length := by
  unfold findCand at h
  have hj := List.find?_some h
  have hmem := List.mem_of_find?_eq_some h
  rw [List.mem_range] at hmem
  simp only [Bool.and_eq_true, decide_eq_true_eq, Bool.not_eq_true'] at hj
  exact ⟨hj.1.1.1, hj.1.1.2, hj.1.2, hj.2, hmem⟩

theorem greedyAux_mem {b : List Char} {w : Nat} :
    ∀ (as : List Char) (i : Nat) (used : List Nat) (p : Nat × Nat),
      p ∈ greedyAux b w as i used →
      i ≤ p.1 ∧ p.1 < i + as.length ∧ p.2 < b.length ∧
        (∃ c, as.get? (p.1 - i) = some c ∧ b.get? p.2 = some c) ∧
        p.1 ≤ p.2 + w ∧ p.2 ≤ p.1 + w := by
  intro as
  induction as with
  | nil => intro i used p hp; simp [greedyAux] at hp
  | cons c rest ih =>
      intro i used p hp
      unfold greedyAux at hp
      rcases hfc : findCand b used c i w with _ | j
      · rw [hfc] at hp
        obtain ⟨h1, h2, h3, h4, h5, h6⟩ := ih (i + 1) used p hp
        refine ⟨by omega, by simp only [List.length_cons]; omega, h3, ?_, h5, h6⟩
        obtain ⟨c', hc1, hc2⟩ := h4
        refine ⟨c', ?_, hc2⟩
        have : p.1 - i = (p.1 - (i + 1)) + 1 := by omega
        rw [this, List.get?_cons_succ]
        exact hc1
      · rw [hfc] at hp
        obtain ⟨hb, hu, hw1, hw2, hlt⟩ := findCand_eq_some hfc
        rcases List.mem_cons.mp hp with rfl | hp'
        · exact ⟨le_refl i, by simp only [List.length_cons]; omega, hlt, ⟨c, by simp, hb⟩, hw1, hw2⟩
        · obtain ⟨h1, h2, h3, h4, h5, h6⟩ := ih (i + 1) (j :: used) p hp'
          refine ⟨by omega, by simp only [List.length_cons]; omega, h3, ?_, h5, h6⟩
          obtain ⟨c', hc1, hc2⟩ := h4
          refine ⟨c', ?_, hc2⟩
          have : p.1 - i = (p.1 - (i + 1)) + 1 := by omega
          rw [this, List.get?_cons_succ]
          exact hc1

theorem greedyAux_unused {b : List Char} {w : Nat} :
    ∀ (as : List Char) (i : Nat) (used : List Nat) (p : Nat × Nat),
      p ∈ greedyAux b w as i used → used.contains p.2 = false := by
  intro as
  induction as with
  | nil => intro i used p hp; simp [greedyAux] at hp
  | cons c rest ih =>
      intro i used p hp
      unfold greedyAux at hp
      rcases hfc : findCand b used c i w with _ | j
      · rw [hfc] at hp; exact ih (i + 1) used p hp
      · rw [hfc] at hp
        obtain ⟨hb, hu, _⟩ := findCand_eq_some hfc
        rcases List.mem_cons.mp hp with rfl | hp'
        · exact hu
        · have := ih (i + 1) (j :: used) p hp'
          simp only [List.contains_cons, Bool.or_eq_false_iff] at this
          exact this.2

theorem greedyAux_firsts_lt {b : List Char} {w : Nat} :
    ∀ (as : List Char) (i : Nat) (used : List Nat),
      (greedyAux b w as i used).Pairwise fun p q => p.1 < q.1 := by
  intro as
  induction as with
  | nil => intro i used; simp [greedyAux]
  | cons c rest ih =>
      intro i used
      unfold greedyAux
      rcases hfc : findCand b used c i w with _ | j
      · exact ih (i + 1) used
      · refine List.Pairwise.cons ?_ (ih (i + 1) (j :: used))
        intro p hp
        have := (greedyAux_mem rest (i + 1) (j :: used) p hp).1
        omega

theorem greedyAux_seconds_ne {b : List Char} {w : Nat} :
    ∀ (as : List Char) (i : Nat) (used : List Nat),
      (greedyAux b w as i used).Pairwise fun p q => p.2 ≠ q.2 := by
  intro as
  induction as with
  | nil => intro i used; simp [greedyAux]
  | cons c rest ih =>
      intro i used
      unfold greedyAux
      rcases hfc : findCand b used c i w with _ | j
      · exact ih (i + 1) used
      · refine List.Pairwise.cons ?_ (ih (i + 1) (j :: used))
        intro p hp
        have := greedyAux_unused rest (i + 1) (j :: used) p hp
        simp only [List.contains_cons, Bool.or_eq_false_iff] at this
        intro hj
        rw [← hj] at this
        simp at this

theorem greedyAux_length_le {b : List Char} {w : Nat} :
    ∀ (as : List Char) (i : Nat) (used : List Nat),
      (greedyAux b w as i used).length ≤ as.length := by
  intro as
  induction as with
  | nil => intro i used; simp [greedyAux]
  | cons c rest ih =>
      intro i used
      unfold greedyAux
      rcases hfc : findCand b used c i w with _ | j
      · exact le_trans (ih (i + 1) used) (by simp)
      · simpa using ih (i + 1) (j :: used)

theorem matchCount_le_left (a b : List Char) : matchCount a b ≤ a.length :=
  greedyAux_length_le a 0 []

theorem matchPairs_seconds_nodup (a b : List Char) :
    ((matchPairs a b).map fun p => p.2).Nodup := by
  have h := greedyAux_seconds_ne (b := b) (w := matchWindow a.length b.length)
    a 0 []
  exact List.Pairwise.map _ (fun p q hpq => hpq) h

theorem matchCount_le_right (a b : List Char) : matchCount a b ≤ b.length := by
  have hnd := matchPairs_seconds_nodup a b
  have hsub : ((matchPairs a b).map fun p => p.2).toFinset ⊆
      Finset.range b.length := by
    intro x hx
    rw [List.mem_toFinset] at hx
    obtain ⟨p, hp, rfl⟩ := List.mem_map.mp hx
    exact Finset.mem_range.mpr (greedyAux_mem a 0 [] p hp).2.2.1
  have := Finset.card_le_card hsub
  rw [List.toFinset_card_of_nodup hnd, Finset.card_range,
    List.length_map] at this
  exact this

theorem length_matchedLeft (a b : List Char) :
    (matchedLeft a b).length = matchCount a b := by
  simp [matchedLeft, matchCount]

theorem length_matchedRight (a b : List Char) :
    (matchedRight a b).length = matchCount a b := by
  simp [matchedRight, matchCount, List.length_insertionSort]

theorem mismatches_le_length : ∀ (x y : List Char),
    mismatches x y ≤ x.length := by
  intro x
  induction x with
  | nil => intro y; cases y <;> simp [mismatches]
  | cons c cs ih =>
      intro y
      cases y with
      | nil => simp [mismatches]
      | cons d ds =>
          unfold mismatches
          have := ih ds
          by_cases h : c = d <;> simp [h] <;> omega

theorem transpositions_nonneg (a b : List Char) :
    0 ≤ transpositions a b := by
  unfold transpositions
  positivity

theorem transpositions_le (a b : List Char) :
    transpositions a b ≤ (matchCount a b : ℚ) := by
  unfold transpositions
  have h := mismatches_le_length (matchedLeft a b) (matchedRight a b)
  rw [length_matchedLeft] at h
  have h' : (mismatches (matchedLeft a b) (matchedRight a b) : ℚ) ≤
      (matchCount a b : ℚ) := by exact_mod_cast h
  have hm : (0 : ℚ) ≤ (matchCount a b : ℚ) := by positivity
  linarith

theorem jaro_nonneg (a b : List Char) : 0 ≤ jaro a b := by
  unfold jaro
  by_cases h : (matchCount a b : ℚ) = 0
  · simp [h]
  · simp only [h, if_false]
    have hm : (0 : ℚ) < (matchCount a b : ℚ) := by
      rcases lt_or_eq_of_le (Nat.cast_nonneg (matchCount a b) : (0:ℚ) ≤ _) with h' | h'
      · exact h'
      · exact absurd h'.symm h
    have ht := transpositions_le a b
    have ht0 := transpositions_nonneg a b
    have h1 : (0 : ℚ) ≤ (matchCount a b : ℚ) / (a.length : ℚ) := by positivity
    have h2 : (0 : ℚ) ≤ (matchCount a b : ℚ) / (b.length : ℚ) := by positivity
    have h3 : (0 : ℚ) ≤ ((matchCount a b : ℚ) - transpositions a b) /
        (matchCount a b : ℚ) := by
      apply div_nonneg _ (le_of_lt hm)
      linarith
    linarith

theorem jaro_le_one (a b : List Char) : jaro a b ≤ 1 := by
  unfold jaro
  by_cases h : (matchCount a b : ℚ) = 0
  · simp [h]
  · simp only [h, if_false]
    have hmn : 1 ≤ matchCount a b := by
      rcases Nat.eq_zero_or_pos (matchCount a b) with h' | h'
      · rw [h'] at h; simp at h
      · exact h'
    have hm : (0 : ℚ) < (matchCount a b : ℚ) := by exact_mod_cast hmn
    have hla : (0 : ℚ) < (a.length : ℚ) := by
      have := matchCount_le_left a b
      have : 1 ≤ a.length := le_trans hmn this
      exact_mod_cast this
    have hlb : (0 : ℚ) < (b.length : ℚ) := by
      have := matchCount_le_right a b
      have : 1 ≤ b.length := le_trans hmn this
      exact_mod_cast this
    have h1 : (matchCount a b : ℚ) / (a.length : ℚ) ≤ 1 := by
      rw [div_le_one hla]
      exact_mod_cast matchCount_le_left a b
    have h2 : (matchCount a b : ℚ) / (b.length : ℚ) ≤ 1 := by
      rw [div_le_one hlb]
      exact_mod_cast matchCount_le_right a b
    have h3 : ((matchCount a b : ℚ) - transpositions a b) /
        (matchCount a b : ℚ) ≤ 1 := by
      rw [div_le_one hm]
      have := transpositions_nonneg a b
      linarith
    linarith

theorem jaroWinkler_nonneg (a b : List Char) : 0 ≤ jaroWinkler a b := by
  unfold jaroWinkler
  by_cases h : a = [] ∧ b = []
  · simp [h]
  · simp only [h, if_false]
    have h1 := jaro_nonneg a b
    have h2 := jaro_le_one a b
    have h3 : (0 : ℚ) ≤ (min (commonStartLen a b) 4 : ℚ) := by positivity
    nlinarith

/-! ### Identical strings score 1 -/

theorem greedyAux_self (a : List Char) (w : Nat) :
    ∀ (as : List Char) (i0 : Nat) (used : List Nat),
      (∀ k, as.get? k = a.get? (i0 + k)) →
      i0 + as.length = a.length →
      (∀ j, used.contains j = decide (j < i0)) →
      greedyAux a w as i0 used =
        (List.range' i0 as.length).map fun k => (k, k) := by
  intro as
  induction as with
  | nil => intro i0 used _ _ _; simp [greedyAux]
  | cons c rest ih =>
      intro i0 used hget hlen hused
      have hc : a.get? i0 = some c := by
        have := hget 0
        simpa using this.symm
      have hi0 : i0 < a.length := by
        simp only [List.length_cons] at hlen; omega
      have hfind : findCand a used c i0 w = some i0 := by
        unfold findCand
        have hsplit : List.range a.length =
            List.range' 0 i0 ++ List.range' i0 (a.length - i0) := by
          rw [List.range_eq_range']
          have happ := List.range'_append 0 i0 (a.length - i0) 1
          simp only [Nat.one_mul, Nat.zero_add] at happ
          rw [happ]
          congr 1
          omega
        rw [hsplit, List.find?_append]
        have h1 : (List.range' 0 i0).find? (fun j =>
            decide (a.get? j = some c) && !(used.contains j) &&
              decide (i0 ≤ j + w) && decide (j ≤ i0 + w)) = none := by
          rw [List.find?_eq_none]
          intro j hj
          rw [List.mem_range'_1] at hj
          have hcj : used.contains j = true := by
            rw [hused, decide_eq_true_eq]
            omega
          simp only [hcj, Bool.not_true, Bool.and_false, Bool.false_and]
          exact Bool.false_ne_true
        have h2 : a.length - i0 = rest.length + 1 := by
          simp only [List.length_cons] at hlen; omega
        have hp : (decide (a.get? i0 = some c) && !(used.contains i0) &&
            decide (i0 ≤ i0 + w) && decide (i0 ≤ i0 + w)) = true := by
          have hc1 : decide (a.get? i0 = some c) = true := by
            rw [hc]; simp
          have hc2 : used.contains i0 = false := by
            rw [hused, decide_eq_false_iff_not]
            omega
          have hc3 : decide (i0 ≤ i0 + w) = true := by
            rw [decide_eq_true_eq]
            omega
          rw [hc1, hc2, hc3]
          rfl
        rw [h1, Option.none_or, h2, List.range'_succ]
        exact List.find?_cons_of_pos _ hp
      unfold greedyAux
      rw [hfind]
      simp only [List.length_cons, List.range'_succ, List.map_cons]
      congr 1
      apply ih (i0 + 1) (i0 :: used)
      · intro k
        have := hget (k + 1)
        have harith : i0 + (k + 1) = i0 + 1 + k := by omega
        rw [harith] at this
        simpa using this
      · simp only [List.length_cons] at hlen; omega
      · intro j
        rw [List.contains_cons, hused]
        by_cases h : j = i0
        · subst h; simp
        · have : (j == i0) = false := by simp [h]
          rw [this]
          simp only [Bool.false_or]
          rw [decide_eq_decide]
          omega

theorem matchPairs_self (a : List Char) :
    matchPairs a a = (List.range' 0 a.length).map fun k => (k, k) := by
  unfold matchPairs
  apply greedyAux_self
  · intro k; simp
  · simp
  · intro j; simp

theorem getD_range_eq (a : List Char) :
    (List.range a.length).map (fun k => a.getD k ' ') = a := by
  apply List.ext_getElem (by simp)
  intro n h1 h2
  simp only [List.getElem_map, List.getElem_range]
  exact List.getD_eq_getElem a ' ' h2

theorem matchCount_self (a : List Char) : matchCount a a = a.length := by
  unfold matchCount
  rw [matchPairs_self]
  simp

theorem matchedLeft_self (a : List Char) : matchedLeft a a = a := by
  unfold matchedLeft
  rw [matchPairs_self, List.map_map, ← List.range_eq_range']
  exact getD_range_eq a

theorem matchedRight_self (a : List Char) : matchedRight a a = a := by
  unfold matchedRight
  rw [matchPairs_self]
  have hsorted : List.Sorted (fun p q : Nat × Nat => p.2 ≤ q.2)
      ((List.range' 0 a.length).map fun k => (k, k)) := by
    apply List.Pairwise.map
    · intro x y hxy
      exact le_of_lt hxy
    · exact List.pairwise_lt_range' 0 a.length
  rw [hsorted.insertionSort_eq, List.map_map, ← List.range_eq_range']
  exact getD_range_eq a

theorem mismatches_self (a : List Char) : mismatches a a = 0 := by
  induction a with
  | nil => rfl
  | cons c cs ih => simp [mismatches, ih]

theorem jaroWinkler_self (a : List Char) : jaroWinkler a a = 1 := by
  unfold jaroWinkler
  by_cases h : a = []
  · simp [h]
  · have hne : ¬(a = [] ∧ a = []) := fun hx => h hx.1
    simp only [hne, if_false]
    have hm : matchCount a a = a.length := matchCount_self a
    have hla : a.length ≠ 0 := fun hx => h (List.length_eq_zero.mp hx)
    have hlaq : ((a.length : ℚ)) ≠ 0 := by exact_mod_cast hla
    have ht : transpositions a a = 0 := by
      unfold transpositions
      rw [matchedLeft_self, matchedRight_self, mismatches_self]
      simp
    have hjaro : jaro a a = 1 := by
      unfold jaro
      rw [hm, ht]
      have hmq : ((a.length : ℚ)) ≠ 0 := hlaq
      simp only [hmq, if_false]
      field_simp
      norm_num
    rw [hjaro]
    ring

/-! ### Only identical strings score 1 -/

theorem strict_bounded_eq_range {l : List Nat} {n : Nat}
    (hs : l.Pairwise (· < ·)) (hb : ∀ x ∈ l, x < n) (hl : l.length = n) :
    l = List.range n := by
  have hnd : l.Nodup := hs.imp fun h => Nat.ne_of_lt h
  have hsub : l ⊆ List.range n := fun x hx => List.mem_range.mpr (hb x hx)
  have hsp : List.Subperm l (List.range n) := hnd.subperm hsub
  have hperm : List.Perm l (List.range n) :=
    hsp.perm_of_length_le (by rw [List.length_range, hl])
  haveI : IsAntisymm Nat (· < ·) :=
    ⟨fun a b h1 h2 => absurd h1 (by omega)⟩
  exact List.eq_of_perm_of_sorted hperm hs (List.pairwise_lt_range n)

theorem mismatches_eq_zero {x y : List Char}
    (hlen : x.length = y.length) (h : mismatches x y = 0) : x = y := by
  induction x generalizing y with
  | nil =>
      cases y with
      | nil => rfl
      | cons d ds => simp at hlen
  | cons c cs ih =>
      cases y with
      | nil => simp at hlen
      | cons d ds =>
          unfold mismatches at h
          by_cases hcd : c = d
          · subst hcd
            simp only [List.length_cons, Nat.add_right_cancel_iff] at hlen
            simp at h
            rw [ih hlen h]
          · rw [if_neg hcd] at h
            omega

theorem matchPairs_firsts_eq_range (a b : List Char)
    (hm : matchCount a b = a.length) :
    (matchPairs a b).map (fun p => p.1) = List.range a.length := by
  apply strict_bounded_eq_range
  · exact List.Pairwise.map _ (fun p q h => h) (greedyAux_firsts_lt a 0 [])
  · intro x hx
    obtain ⟨p, hp, rfl⟩ := List.mem_map.mp hx
    have := (greedyAux_mem a 0 [] p hp).2.1
    simpa using this
  · rw [List.length_map]
    exact hm

theorem matchedLeft_eq_left (a b : List Char)
    (hm : matchCount a b = a.length) : matchedLeft a b = a := by
  unfold matchedLeft
  have hstep : (matchPairs a b).map (fun p => a.getD p.1 ' ') =
      ((matchPairs a b).map fun p => p.1).map fun k => a.getD k ' ' := by
    rw [List.map_map]
    rfl
  rw [hstep, matchPairs_firsts_eq_range a b hm, getD_range_eq]

theorem matchPairs_sortedSeconds_eq_range (a b : List Char)
    (hm : matchCount a b = b.length) :
    (((matchPairs a b).insertionSort fun p q : Nat × Nat => p.2 ≤ q.2).map
      fun p => p.2) = List.range b.length := by
  haveI : IsTotal (Nat × Nat) fun p q => p.2 ≤ q.2 :=
    ⟨fun p q => Nat.le_total p.2 q.2⟩
  haveI : IsTrans (Nat × Nat) fun p q => p.2 ≤ q.2 :=
    ⟨fun p q r h1 h2 => le_trans h1 h2⟩
  have hperm : List.Perm
      ((matchPairs a b).insertionSort fun p q : Nat × Nat => p.2 ≤ q.2)
      (matchPairs a b) := List.perm_insertionSort _ _
  have hpermm : List.Perm
      ((((matchPairs a b).insertionSort fun p q : Nat × Nat => p.2 ≤ q.2)).map
        fun p => p.2)
      ((matchPairs a b).map fun p => p.2) := hperm.map _
  have hnd : ((((matchPairs a b).insertionSort
      fun p q : Nat × Nat => p.2 ≤ q.2)).map fun p => p.2).Nodup :=
    (hpermm.nodup_iff).mpr (matchPairs_seconds_nodup a b)
  have hsorted : List.Sorted (fun p q : Nat × Nat => p.2 ≤ q.2)
      ((matchPairs a b).insertionSort fun p q : Nat × Nat => p.2 ≤ q.2) :=
    List.sorted_insertionSort _ _
  have hle : ((((matchPairs a b).insertionSort
      fun p q : Nat × Nat => p.2 ≤ q.2)).map fun p => p.2).Pairwise (· ≤ ·) :=
    List.Pairwise.map _ (fun p q h => h) hsorted
  apply strict_bounded_eq_range
  · exact (hle.and hnd).imp fun h => lt_of_le_of_ne h.1 h.2
  · intro x hx
    obtain ⟨p, hp, rfl⟩ := List.mem_map.mp hx
    exact (greedyAux_mem a 0 [] p (hperm.mem_iff.mp hp)).2.2.1
  · rw [List.length_map, List.length_insertionSort]
    exact hm

theorem matchedRight_eq_right (a b : List Char)
    (hm : matchCount a b = b.length) : matchedRight a b = b := by
  unfold matchedRight
  have hstep : (((matchPairs a b).insertionSort
      fun p q : Nat × Nat => p.2 ≤ q.2)).map (fun p => b.getD p.2 ' ') =
      ((((matchPairs a b).insertionSort fun p q : Nat × Nat => p.2 ≤ q.2)).map
        fun p => p.2).map fun k => b.getD k ' ' := by
    rw [List.map_map]
    rfl
  rw [hstep, matchPairs_sortedSeconds_eq_range a b hm, getD_range_eq]

theorem jaroWinkler_eq_one_iff (a b : List Char) :
    jaroWinkler a b = 1 ↔ a = b := by
  constructor
  · intro h
    by_cases hab : a = [] ∧ b = []
    · rw [hab.1, hab.2]
    · unfold jaroWinkler at h
      rw [if_neg hab] at h
      simp only at h
      have hj1 : jaro a b ≤ 1 := jaro_le_one a b
      have hcs : min ((commonStartLen a b : ℚ)) 4 ≤ 4 :=
        min_le_right ((commonStartLen a b : ℚ)) 4
      have hcs0 : (0 : ℚ) ≤ min ((commonStartLen a b : ℚ)) 4 :=
        le_min (Nat.cast_nonneg (commonStartLen a b)) (by norm_num)
      have hfac : (1 - jaro a b) *
          (1 - min ((commonStartLen a b : ℚ)) 4 * (1 / 10)) = 0 := by
        linear_combination -h
      have hjaro : jaro a b = 1 := by
        rcases mul_eq_zero.mp hfac with hz | hz
        · linarith
        · linarith
      have hm0 : matchCount a b ≠ 0 := by
        intro h0
        unfold jaro at hjaro
        simp only [h0, Nat.cast_zero] at hjaro
        norm_num at hjaro
      have hmq : ((matchCount a b : ℚ)) ≠ 0 := by exact_mod_cast hm0
      have hmn : 1 ≤ matchCount a b := Nat.one_le_iff_ne_zero.mpr hm0
      have hmqpos : (0 : ℚ) < (matchCount a b : ℚ) := by exact_mod_cast hmn
      have hla : (0 : ℚ) < (a.length : ℚ) := by
        have := le_trans hmn (matchCount_le_left a b)
        exact_mod_cast this
      have hlb : (0 : ℚ) < (b.length : ℚ) := by
        have := le_trans hmn (matchCount_le_right a b)
        exact_mod_cast this
      unfold jaro at hjaro
      simp only [hmq, if_false] at hjaro
      have h1 : (matchCount a b : ℚ) / (a.length : ℚ) ≤ 1 := by
        rw [div_le_one hla]
        exact_mod_cast matchCount_le_left a b
      have h2 : (matchCount a b : ℚ) / (b.length : ℚ) ≤ 1 := by
        rw [div_le_one hlb]
        exact_mod_cast matchCount_le_right a b
      have h3 : ((matchCount a b : ℚ) - transpositions a b) /
          (matchCount a b : ℚ) ≤ 1 := by
        rw [div_le_one hmqpos]
        have := transpositions_nonneg a b
        linarith
      have hx : (matchCount a b : ℚ) / (a.length : ℚ) = 1 := by linarith
      have hy : (matchCount a b : ℚ) / (b.length : ℚ) = 1 := by linarith
      have hz : ((matchCount a b : ℚ) - transpositions a b) /
          (matchCount a b : ℚ) = 1 := by linarith
      have hmla : matchCount a b = a.length := by
        have := (div_eq_one_iff_eq (ne_of_gt hla)).mp hx
        exact_mod_cast this
      have hmlb : matchCount a b = b.length := by
        have := (div_eq_one_iff_eq (ne_of_gt hlb)).mp hy
        exact_mod_cast this
      have ht0 : transpositions a b = 0 := by
        have := (div_eq_one_iff_eq hmq).mp hz
        linarith
      have hmm0 : mismatches (matchedLeft a b) (matchedRight a b) = 0 := by
        unfold transpositions at ht0
        have : (mismatches (matchedLeft a b) (matchedRight a b) : ℚ) = 0 := by
          field_simp at ht0
          exact_mod_cast ht0
        exact_mod_cast this
      have hL : matchedLeft a b = a := matchedLeft_eq_left a b hmla
      have hR : matchedRight a b = b := matchedRight_eq_right a b hmlb
      rw [hL, hR] at hmm0
      exact mismatches_eq_zero (by omega) hmm0
  · rintro rfl
    exact jaroWinkler_self a

theorem jaroWinkler_le_one (a b : List Char) : jaroWinkler a b ≤ 1 := by
  unfold jaroWinkler
  by_cases h : a = [] ∧ b = []
  · simp [h]
  · simp only [h, if_false]
    have h1 := jaro_nonneg a b
    have h2 := jaro_le_one a b
    have h3 : (0 : ℚ) ≤ (min (commonStartLen a b) 4 : ℚ) := by positivity
    have h4 : (min (commonStartLen a b) 4 : ℚ) ≤ 4 := by
      have : min (commonStartLen a b) 4 ≤ 4 := min_le_right _ _
      exact_mod_cast this
    nlinarith

/-! ### Symmetry of the greedy matching -/

theorem pairMerge_symm_aux (w : Nat) :
    ∀ (n : Nat) (A B : List Nat), A.length + B.length ≤ n →
      pairMerge w B A = (pairMerge w A B).map Prod.swap := by
  intro n
  induction n with
  | zero =>
      intro A B h
      match A, B with
      | [], [] => simp [pairMerge]
      | [], _ :: _ => simp at h
      | _ :: _, _ => simp at h
  | succ n ih =>
      intro A B h
      match A, B with
      | [], [] => simp [pairMerge]
      | [], y :: ys => simp [pairMerge]
      | x :: xs, [] => simp [pairMerge]
      | x :: xs, y :: ys =>
          simp only [List.length_cons] at h
          simp only [pairMerge]
          by_cases h1 : y + w < x
          · have h2 : ¬ (x + w < y) := by omega
            rw [if_neg h2, if_pos h1, if_pos h1]
            exact ih (x :: xs) ys (by simp only [List.length_cons]; omega)
          · by_cases h2 : x + w < y
            · rw [if_pos h2, if_neg h1, if_pos h2]
              exact ih xs (y :: ys) (by simp only [List.length_cons]; omega)
            · rw [if_neg h2, if_neg h1, if_neg h1, if_neg h2]
              rw [List.map_cons]
              congr 1
              exact ih xs ys (by omega)

theorem pairMerge_symm (w : Nat) (A B : List Nat) :
    pairMerge w B A = (pairMerge w A B).map Prod.swap :=
  pairMerge_symm_aux w (A.length + B.length) A B le_rfl

theorem pairMerge_drop_small (w : Nat) :
    ∀ (ds : List Nat) (is rest : List Nat),
      (∀ d ∈ ds, ∀ i ∈ is, d + w < i) →
      pairMerge w is (ds ++ rest) = pairMerge w is rest := by
  intro ds
  induction ds with
  | nil => intro is rest _; rfl
  | cons d ds' ih =>
      intro is rest hsm
      match is with
      | [] => simp [pairMerge]
      | i :: is' =>
          have hd : d + w < i := hsm d (by simp) i (by simp)
          rw [List.cons_append]
          simp only [pairMerge]
          rw [if_pos hd]
          exact ih (i :: is') rest fun d' hd' i' hi' =>
            hsm d' (by simp [hd']) i' hi'

theorem findCand_eq_availOf_find (b : List Char) (used : List Nat)
    (c : Char) (i w : Nat) :
    findCand b used c i w = (availOf c b used).find? fun j =>
      decide (i ≤ j + w) && decide (j ≤ i + w) := by
  unfold findCand availOf
  rw [List.find?_filter]
  congr 1
  funext j
  simp [Bool.and_assoc]

theorem availOf_sorted (c : Char) (b : List Char) (used : List Nat) :
    (availOf c b used).Pairwise (· < ·) :=
  (List.pairwise_lt_range b.length).filter _

theorem availOf_cons_used (c : Char) (b : List Char) (used : List Nat)
    (j : Nat) :
    availOf c b (j :: used) = (availOf c b used).filter fun x => !(x == j) := by
  unfold availOf
  rw [List.filter_filter]
  apply List.filter_congr
  intro x _
  simp only [List.contains_cons, Bool.not_or]
  rw [Bool.and_left_comm]

theorem availOf_cons_used_ne (c x0 : Char) (b : List Char) (used : List Nat)
    (j : Nat) (hj : b.get? j = some x0) (hne : x0 ≠ c) :
    availOf c b (j :: used) = availOf c b used := by
  unfold availOf
  apply List.filter_congr
  intro x _
  by_cases hxj : x = j
  · subst hxj
    have hfalse : decide (b.get? x = some c) = false := by
      rw [hj]
      simp [hne]
    rw [hfalse]
    simp
  · have : (x == j) = false := by simp [hxj]
    rw [List.contains_cons, this]
    simp

theorem posnsFrom_eq_filter (c : Char) :
    ∀ (l : List Char) (i : Nat),
      posnsFrom c l i =
        (List.range' i l.length).filter fun j =>
          decide (l.get? (j - i) = some c) := by
  intro l
  induction l with
  | nil => intro i; simp [posnsFrom]
  | cons x xs ih =>
      intro i
      rw [List.length_cons, List.range'_succ, List.filter_cons]
      have hhead : (decide ((x :: xs).get? (i - i) = some c)) =
          (decide (x = c)) := by
        have h0 : i - i = 0 := by omega
        rw [h0, List.get?_cons_zero, decide_eq_decide]
        exact Option.some_inj
      have htail : (List.range' (i + 1) xs.length).filter
          (fun j => decide ((x :: xs).get? (j - i) = some c)) =
          (List.range' (i + 1) xs.length).filter
          (fun j => decide (xs.get? (j - (i + 1)) = some c)) := by
        apply List.filter_congr
        intro j hj
        rw [List.mem_range'_1] at hj
        have hji : j - i = (j - (i + 1)) + 1 := by omega
        rw [hji, List.get?_cons_succ]
      rw [hhead, htail, ← ih (i + 1)]
      by_cases hx : x = c <;> simp [posnsFrom, hx]

theorem availOf_nil_used (c : Char) (b : List Char) :
    availOf c b [] = posnsFrom c b 0 := by
  unfold availOf
  rw [posnsFrom_eq_filter, ← List.range_eq_range']
  apply List.filter_congr
  intro j _
  simp

theorem posnsFrom_ge (c : Char) :
    ∀ (l : List Char) (i : Nat), ∀ p ∈ posnsFrom c l i, i ≤ p := by
  intro l
  induction l with
  | nil => intro i p hp; simp [posnsFrom] at hp
  | cons x xs ih =>
      intro i p hp
      unfold posnsFrom at hp
      by_cases hx : x = c
      · rw [if_pos hx] at hp
        rcases List.mem_cons.mp hp with rfl | hp'
        · exact le_refl p
        · exact le_trans (by omega) (ih (i + 1) p hp')
      · rw [if_neg hx] at hp
        exact le_trans (by omega) (ih (i + 1) p hp)

theorem dropWhile_head_false {α : Type} {p : α → Bool} :
    ∀ {l : List α} {x : α} {xs : List α},
      l.dropWhile p = x :: xs → p x = false := by
  intro l
  induction l with
  | nil => intro x xs h; simp [List.dropWhile] at h
  | cons y ys ih =>
      intro x xs h
      rw [List.dropWhile_cons] at h
      by_cases hy : p y = true
      · rw [if_pos hy] at h
        exact ih h
      · rw [if_neg hy] at h
        obtain ⟨rfl, rfl⟩ := List.cons.inj h
        exact Bool.not_eq_true _ |>.mp hy

theorem pairMerge_nil_right (w : Nat) (is : List Nat) :
    pairMerge w is [] = [] := by
  cases is <;> simp [pairMerge]

theorem mem_takeWhile_pred {α : Type} {p : α → Bool} :
    ∀ {l : List α} {x : α}, x ∈ l.takeWhile p → p x = true := by
  intro l
  induction l with
  | nil => intro x hx; simp [List.takeWhile] at hx
  | cons y ys ih =>
      intro x hx
      rw [List.takeWhile_cons] at hx
      by_cases hy : p y = true
      · rw [if_pos hy] at hx
        rcases List.mem_cons.mp hx with rfl | hx2
        · exact hy
        · exact ih hx2
      · rw [if_neg hy] at hx
        simp at hx

/-- Processing a left position `i0` against the available right positions:
when no right position lies in the window, the merge drops `i0`. -/
theorem merge_head_none (w i0 : Nat) (P' S : List Nat)
    (hP : ∀ p ∈ P', i0 + 1 ≤ p)
    (hsort : S.Pairwise (· < ·))
    (hnone : S.find? (fun z => decide (i0 ≤ z + w) && decide (z ≤ i0 + w)) =
      none) :
    pairMerge w (i0 :: P') S = pairMerge w P' S := by
  have hsplit := List.takeWhile_append_dropWhile
    (fun z => decide (z + w < i0)) S
  have hsm : ∀ z ∈ S.takeWhile (fun z => decide (z + w < i0)),
      z + w < i0 := by
    intro z hz
    have h := mem_takeWhile_pred hz
    simp only [decide_eq_true_eq] at h
    exact h
  have hbgsort : (S.dropWhile (fun z => decide (z + w < i0))).Pairwise
      (· < ·) :=
    List.Pairwise.sublist (List.dropWhile_sublist _) hsort
  rw [← hsplit, List.find?_append] at hnone
  have hsmnone : (S.takeWhile (fun z => decide (z + w < i0))).find?
      (fun z => decide (i0 ≤ z + w) && decide (z ≤ i0 + w)) = none := by
    rw [List.find?_eq_none]
    intro z hz
    have hzw := hsm z hz
    simp only [Bool.and_eq_true, decide_eq_true_eq]
    rintro ⟨h1, _⟩
    omega
  rw [hsmnone, Option.none_or] at hnone
  have hsmP : ∀ d ∈ S.takeWhile (fun z => decide (z + w < i0)),
      ∀ i ∈ i0 :: P', d + w < i := by
    intro d hd i hi
    have := hsm d hd
    rcases List.mem_cons.mp hi with rfl | hi'
    · omega
    · exact lt_of_lt_of_le (by omega) (hP i hi')
  have hsmP' : ∀ d ∈ S.takeWhile (fun z => decide (z + w < i0)),
      ∀ i ∈ P', d + w < i := fun d hd i hi =>
    lt_of_lt_of_le (by have := hsm d hd; omega) (hP i hi)
  rw [← hsplit]
  rcases hbg : S.dropWhile (fun z => decide (z + w < i0)) with _ | ⟨j0, tail⟩
  · rw [pairMerge_drop_small w _ (i0 :: P') [] hsmP,
      pairMerge_drop_small w _ P' [] hsmP',
      pairMerge_nil_right, pairMerge_nil_right]
  · rw [hbg] at hnone
    have hhead : ¬ (j0 + w < i0) := by
      have := dropWhile_head_false hbg
      rw [decide_eq_false_iff_not] at this
      exact this
    have hj0big : i0 + w < j0 := by
      by_contra hcon
      have hrw : List.find?
          (fun z => decide (i0 ≤ z + w) && decide (z ≤ i0 + w)) (j0 :: tail)
          = some j0 :=
        List.find?_cons_of_pos _
          (by simp only [Bool.and_eq_true, decide_eq_true_eq]; omega)
      rw [hrw] at hnone
      exact Option.some_ne_none j0 hnone
    rw [pairMerge_drop_small w _ (i0 :: P') (j0 :: tail) hsmP,
      pairMerge_drop_small w _ P' (j0 :: tail) hsmP']
    simp only [pairMerge]
    rw [if_neg hhead, if_pos hj0big]

/-- Processing a left position `i0` against the available right positions:
when the smallest windowed right position is `j`, the merge emits `(i0, j)`
and continues without `j`. -/
theorem merge_head_some (w i0 j : Nat) (P' S : List Nat)
    (hP : ∀ p ∈ P', i0 + 1 ≤ p)
    (hsort : S.Pairwise (· < ·))
    (hsome : S.find? (fun z => decide (i0 ≤ z + w) && decide (z ≤ i0 + w)) =
      some j) :
    pairMerge w (i0 :: P') S =
      (i0, j) :: pairMerge w P' (S.filter fun z => !(z == j)) := by
  have hsplit := List.takeWhile_append_dropWhile
    (fun z => decide (z + w < i0)) S
  have hsm : ∀ z ∈ S.takeWhile (fun z => decide (z + w < i0)),
      z + w < i0 := by
    intro z hz
    have h := mem_takeWhile_pred hz
    simp only [decide_eq_true_eq] at h
    exact h
  have hbgsort : (S.dropWhile (fun z => decide (z + w < i0))).Pairwise
      (· < ·) :=
    List.Pairwise.sublist (List.dropWhile_sublist _) hsort
  have hsmP : ∀ d ∈ S.takeWhile (fun z => decide (z + w < i0)),
      ∀ i ∈ i0 :: P', d + w < i := by
    intro d hd i hi
    have := hsm d hd
    rcases List.mem_cons.mp hi with rfl | hi'
    · omega
    · exact lt_of_lt_of_le (by omega) (hP i hi')
  have hsmP' : ∀ d ∈ S.takeWhile (fun z => decide (z + w < i0)),
      ∀ i ∈ P', d + w < i := fun d hd i hi =>
    lt_of_lt_of_le (by have := hsm d hd; omega) (hP i hi)
  rw [← hsplit, List.find?_append] at hsome
  have hsmnone : (S.takeWhile (fun z => decide (z + w < i0))).find?
      (fun z => decide (i0 ≤ z + w) && decide (z ≤ i0 + w)) = none := by
    rw [List.find?_eq_none]
    intro z hz
    have hzw := hsm z hz
    simp only [Bool.and_eq_true, decide_eq_true_eq]
    rintro ⟨h1, _⟩
    omega
  rw [hsmnone, Option.none_or] at hsome
  rcases hbg : S.dropWhile (fun z => decide (z + w < i0)) with _ | ⟨j0, tail⟩
  · rw [hbg] at hsome
    simp at hsome
  · rw [hbg] at hsome
    have hhead : ¬ (j0 + w < i0) := by
      have := dropWhile_head_false hbg
      rw [decide_eq_false_iff_not] at this
      exact this
    rcases List.pairwise_cons.mp (hbg ▸ hbgsort) with ⟨hj0lt, htailsort⟩
    have hj0 : j0 ≤ i0 + w ∧ j = j0 := by
      by_cases hcon : j0 ≤ i0 + w
      · have hrw : List.find?
            (fun z => decide (i0 ≤ z + w) && decide (z ≤ i0 + w)) (j0 :: tail)
            = some j0 :=
          List.find?_cons_of_pos _
            (by simp only [Bool.and_eq_true, decide_eq_true_eq]; omega)
        rw [hrw] at hsome
        exact ⟨hcon, (Option.some_inj.mp hsome).symm⟩
      · exfalso
        have hrw : List.find?
            (fun z => decide (i0 ≤ z + w) && decide (z ≤ i0 + w)) (j0 :: tail)
            = List.find?
            (fun z => decide (i0 ≤ z + w) && decide (z ≤ i0 + w)) tail :=
          List.find?_cons_of_neg _ (by
            simp only [Bool.and_eq_true, decide_eq_true_eq]
            rintro ⟨_, h2⟩
            exact hcon h2)
        rw [hrw] at hsome
        have htnone : tail.find?
            (fun z => decide (i0 ≤ z + w) && decide (z ≤ i0 + w)) = none := by
          rw [List.find?_eq_none]
          intro z hz
          have := hj0lt z hz
          simp only [Bool.and_eq_true, decide_eq_true_eq]
          rintro ⟨_, h2⟩
          omega
        rw [htnone] at hsome
        exact Option.some_ne_none j hsome.symm
    obtain ⟨hj0win, rfl⟩ := hj0
    have hfilter : ((S.takeWhile fun z => decide (z + w < i0)) ++
        j :: tail).filter (fun z => !(z == j)) =
        (S.takeWhile fun z => decide (z + w < i0)) ++ tail := by
      rw [List.filter_append]
      have hleft : (S.takeWhile fun z => decide (z + w < i0)).filter
          (fun z => !(z == j)) =
          S.takeWhile fun z => decide (z + w < i0) := by
        rw [List.filter_eq_self]
        intro z hz
        have := hsm z hz
        have hne : z ≠ j := by omega
        simp [hne]
      have hdrop : List.filter (fun z => !(z == j)) (j :: tail) =
          List.filter (fun z => !(z == j)) tail :=
        List.filter_cons_of_neg (by simp)
      have hright : List.filter (fun z => !(z == j)) tail = tail := by
        rw [List.filter_eq_self]
        intro z hz
        have := hj0lt z hz
        have hne : z ≠ j := by omega
        simp [hne]
      rw [hleft, hdrop, hright]
    rw [← hsplit, hbg, hfilter]
    rw [pairMerge_drop_small w _ (i0 :: P') (j :: tail) hsmP,
      pairMerge_drop_small w _ P' tail hsmP']
    simp only [pairMerge]
    rw [if_neg hhead, if_neg (by omega : ¬ (i0 + w < j))]

/-- The greedy matching decomposes per character: the matched pairs whose
`b`-side holds `c` are exactly the single-character merge of the positions
of `c` on both sides. -/
theorem greedyAux_proj (b : List Char) (w : Nat) (c : Char) :
    ∀ (as : List Char) (i0 : Nat) (used : List Nat),
      (greedyAux b w as i0 used).filter
          (fun p => decide (b.get? p.2 = some c)) =
        pairMerge w (posnsFrom c as i0) (availOf c b used) := by
  intro as
  induction as with
  | nil =>
      intro i0 used
      simp [greedyAux, posnsFrom, pairMerge]
  | cons x rest ih =>
      intro i0 used
      have hPge : ∀ p ∈ posnsFrom c rest (i0 + 1), i0 + 1 ≤ p :=
        posnsFrom_ge c rest (i0 + 1)
      have hposns : posnsFrom c (x :: rest) i0 =
          if x = c then i0 :: posnsFrom c rest (i0 + 1)
          else posnsFrom c rest (i0 + 1) := rfl
      unfold greedyAux
      rcases hfc : findCand b used x i0 w with _ | j
      · rw [findCand_eq_availOf_find] at hfc
        by_cases hx : x = c
        · rw [hx] at hfc
          rw [ih (i0 + 1) used, hposns, if_pos hx]
          exact (merge_head_none w i0 _ _ hPge
            (availOf_sorted c b used) hfc).symm
        · rw [ih (i0 + 1) used, hposns, if_neg hx]
      · obtain ⟨hbj, hjun, hw1, hw2, hjlt⟩ := findCand_eq_some hfc
        rw [findCand_eq_availOf_find] at hfc
        by_cases hx : x = c
        · rw [hx] at hfc hbj
          have hconsfilter : List.filter
              (fun p : Nat × Nat => decide (b.get? p.2 = some c))
              ((i0, j) :: greedyAux b w rest (i0 + 1) (j :: used)) =
              (i0, j) :: List.filter
              (fun p : Nat × Nat => decide (b.get? p.2 = some c))
              (greedyAux b w rest (i0 + 1) (j :: used)) :=
            List.filter_cons_of_pos
              (by simp only [decide_eq_true_eq]; exact hbj)
          rw [hconsfilter, ih (i0 + 1) (j :: used), availOf_cons_used,
            hposns, if_pos hx]
          exact (merge_head_some w i0 j _ _ hPge
            (availOf_sorted c b used) hfc).symm
        · have hconsfilter : List.filter
              (fun p : Nat × Nat => decide (b.get? p.2 = some c))
              ((i0, j) :: greedyAux b w rest (i0 + 1) (j :: used)) =
              List.filter
              (fun p : Nat × Nat => decide (b.get? p.2 = some c))
              (greedyAux b w rest (i0 + 1) (j :: used)) :=
            List.filter_cons_of_neg (by
              simp only [decide_eq_true_eq]
              exact fun hcontra =>
                hx (Option.some_inj.mp (hbj.symm.trans hcontra)))
          rw [hconsfilter, ih (i0 + 1) (j :: used),
            availOf_cons_used_ne c x b used j hbj hx, hposns, if_neg hx]

/-- Per-character projection of the full matching, in closed form. -/
theorem matchPairs_proj (a b : List Char) (c : Char) :
    (matchPairs a b).filter (fun p => decide (b.get? p.2 = some c)) =
      pairMerge (matchWindow a.length b.length)
        (posnsFrom c a 0) (posnsFrom c b 0) := by
  unfold matchPairs
  rw [greedyAux_proj, availOf_nil_used]

theorem matchWindow_comm (la lb : Nat) : matchWindow la lb = matchWindow lb la := by
  unfold matchWindow
  rw [Nat.max_comm]

theorem count_filter_pos {α : Type} [BEq α] [LawfulBEq α] (l : List α)
    (q : α → Bool) (x : α) (hx : q x = true) :
    (l.filter q).count x = l.count x := by
  induction l with
  | nil => rfl
  | cons y ys ih =>
      rw [List.filter_cons]
      by_cases hy : q y = true
      · rw [if_pos hy, List.count_cons, List.count_cons, ih]
      · rw [if_neg hy, List.count_cons]
        have hne : (y == x) = false := by
          rw [beq_eq_false_iff_ne]
          intro hc
          rw [← hc] at hx
          exact hy hx
        rw [hne, ih]
        simp

theorem count_map_swap [BEq (Nat × Nat)] [LawfulBEq (Nat × Nat)]
    (l : List (Nat × Nat)) (p : Nat × Nat) :
    (l.map Prod.swap).count p = l.count (Prod.swap p) := by
  induction l with
  | nil => rfl
  | cons q qs ih =>
      rw [List.map_cons, List.count_cons, List.count_cons, ih]
      have hiff : (Prod.swap q == p) = (q == Prod.swap p) := by
        by_cases h : Prod.swap q = p
        · have h2 : q = Prod.swap p := by rw [← h, Prod.swap_swap]
          simp [h, h2]
        · have h2 : ¬ q = Prod.swap p := by
            intro hc
            rw [hc, Prod.swap_swap] at h
            exact h rfl
          simp [h, h2]
      rw [hiff]

/-- Nodup: the first components of the matched pairs strictly increase. -/
theorem matchPairs_nodup (a b : List Char) : (matchPairs a b).Nodup :=
  (greedyAux_firsts_lt a 0 []).imp fun h heq => by
    rw [heq] at h
    exact lt_irrefl _ h

/-- The matched pair set is the same in both directions, with the
components exchanged. -/
theorem matchPairs_swap_perm (a b : List Char) :
    List.Perm (matchPairs b a) ((matchPairs a b).map Prod.swap) := by
  rw [List.perm_ext_iff_of_nodup (matchPairs_nodup b a)
    (List.Nodup.map Prod.swap_injective (matchPairs_nodup a b))]
  intro p
  constructor
  · intro hp
    obtain ⟨_, _, _, ⟨c, hc1, hc2⟩, _⟩ := greedyAux_mem b 0 [] p hp
    have hmemf : p ∈ (matchPairs b a).filter
        (fun q => decide (a.get? q.2 = some c)) :=
      List.mem_filter.mpr ⟨hp, by simp only [decide_eq_true_eq]; exact hc2⟩
    rw [matchPairs_proj b a c, matchWindow_comm b.length a.length,
      pairMerge_symm (matchWindow a.length b.length)
        (posnsFrom c a 0) (posnsFrom c b 0),
      ← matchPairs_proj a b c] at hmemf
    obtain ⟨q, hq, rfl⟩ := List.mem_map.mp hmemf
    exact List.mem_map.mpr ⟨q, (List.mem_filter.mp hq).1, rfl⟩
  · intro hp
    obtain ⟨q, hq, rfl⟩ := List.mem_map.mp hp
    obtain ⟨_, _, _, ⟨c, hc1, hc2⟩, _⟩ := greedyAux_mem a 0 [] q hq
    have hmemf : q ∈ (matchPairs a b).filter
        (fun r => decide (b.get? r.2 = some c)) :=
      List.mem_filter.mpr ⟨hq, by simp only [decide_eq_true_eq]; exact hc2⟩
    rw [matchPairs_proj a b c] at hmemf
    have hswap : Prod.swap q ∈ (pairMerge (matchWindow a.length b.length)
        (posnsFrom c a 0) (posnsFrom c b 0)).map Prod.swap :=
      List.mem_map.mpr ⟨q, hmemf, rfl⟩
    rw [← pairMerge_symm (matchWindow a.length b.length)
        (posnsFrom c a 0) (posnsFrom c b 0),
      ← matchWindow_comm b.length a.length,
      ← matchPairs_proj b a c] at hswap
    exact (List.mem_filter.mp hswap).1

theorem matchCount_comm (a b : List Char) : matchCount a b = matchCount b a := by
  unfold matchCount
  have h := (matchPairs_swap_perm a b).length_eq
  rw [List.length_map] at h
  exact h.symm

/-- The reverse-direction matching is the forward matching sorted by its
`b`-index, components exchanged. -/
theorem matchPairs_rev_eq_sorted_swap (a b : List Char) :
    matchPairs b a = ((matchPairs a b).insertionSort
      fun p q : Nat × Nat => p.2 ≤ q.2).map Prod.swap := by
  haveI : IsTotal (Nat × Nat) fun p q => p.2 ≤ q.2 :=
    ⟨fun p q => Nat.le_total p.2 q.2⟩
  haveI : IsTrans (Nat × Nat) fun p q => p.2 ≤ q.2 :=
    ⟨fun p q r h1 h2 => le_trans h1 h2⟩
  haveI : IsAntisymm (Nat × Nat) fun p q : Nat × Nat => p.1 < q.1 :=
    ⟨fun p q h1 h2 => absurd h1 (by omega)⟩
  have hperm : List.Perm (matchPairs b a)
      (((matchPairs a b).insertionSort
        fun p q : Nat × Nat => p.2 ≤ q.2).map Prod.swap) :=
    (matchPairs_swap_perm a b).trans
      ((List.perm_insertionSort _ _).map Prod.swap).symm
  have hs1 : List.Sorted (fun p q : Nat × Nat => p.1 < q.1) (matchPairs b a) :=
    greedyAux_firsts_lt b 0 []
  have hsortedle : ((matchPairs a b).insertionSort
      fun p q : Nat × Nat => p.2 ≤ q.2).Pairwise fun p q => p.2 ≤ q.2 :=
    List.sorted_insertionSort _ _
  have hnd : (((matchPairs a b).insertionSort
      fun p q : Nat × Nat => p.2 ≤ q.2).map fun p => p.2).Nodup :=
    (((List.perm_insertionSort _ _).map fun p : Nat × Nat => p.2).nodup_iff).mpr
      (matchPairs_seconds_nodup a b)
  have hndp : ((matchPairs a b).insertionSort
      fun p q : Nat × Nat => p.2 ≤ q.2).Pairwise fun p q => p.2 ≠ q.2 :=
    (List.pairwise_map).mp hnd
  have hs2 : List.Sorted (fun p q : Nat × Nat => p.1 < q.1)
      (((matchPairs a b).insertionSort
        fun p q : Nat × Nat => p.2 ≤ q.2).map Prod.swap) := by
    rw [List.Sorted, List.pairwise_map]
    exact (hsortedle.and hndp).imp fun h => lt_of_le_of_ne h.1 h.2
  exact List.eq_of_perm_of_sorted hperm hs1 hs2

/-- Sorting the reverse-direction matching by its second component gives
the forward matching, components exchanged. -/
theorem matchPairs_rev_sorted_eq_swap (a b : List Char) :
    (matchPairs b a).insertionSort (fun p q : Nat × Nat => p.2 ≤ q.2) =
      (matchPairs a b).map Prod.swap := by
  haveI : IsTotal (Nat × Nat) fun p q => p.2 ≤ q.2 :=
    ⟨fun p q => Nat.le_total p.2 q.2⟩
  haveI : IsTrans (Nat × Nat) fun p q => p.2 ≤ q.2 :=
    ⟨fun p q r h1 h2 => le_trans h1 h2⟩
  haveI : IsAntisymm (Nat × Nat) fun p q : Nat × Nat => p.2 < q.2 :=
    ⟨fun p q h1 h2 => absurd h1 (by omega)⟩
  have hperm : List.Perm
      ((matchPairs b a).insertionSort fun p q : Nat × Nat => p.2 ≤ q.2)
      ((matchPairs a b).map Prod.swap) :=
    (List.perm_insertionSort _ _).trans (matchPairs_swap_perm a b)
  have hsortedle : ((matchPairs b a).insertionSort
      fun p q : Nat × Nat => p.2 ≤ q.2).Pairwise fun p q => p.2 ≤ q.2 :=
    List.sorted_insertionSort _ _
  have hnd : (((matchPairs b a).insertionSort
      fun p q : Nat × Nat => p.2 ≤ q.2).map fun p => p.2).Nodup :=
    (((List.perm_insertionSort _ _).map fun p : Nat × Nat => p.2).nodup_iff).mpr
      (matchPairs_seconds_nodup b a)
  have hndp : ((matchPairs b a).insertionSort
      fun p q : Nat × Nat => p.2 ≤ q.2).Pairwise fun p q => p.2 ≠ q.2 :=
    (List.pairwise_map).mp hnd
  have hs1 : List.Sorted (fun p q : Nat × Nat => p.2 < q.2)
      ((matchPairs b a).insertionSort fun p q : Nat × Nat => p.2 ≤ q.2) :=
    (hsortedle.and hndp).imp fun h => lt_of_le_of_ne h.1 h.2
  have hs2 : List.Sorted (fun p q : Nat × Nat => p.2 < q.2)
      ((matchPairs a b).map Prod.swap) := by
    rw [List.Sorted, List.pairwise_map]
    exact greedyAux_firsts_lt a 0 []
  exact List.eq_of_perm_of_sorted hperm hs1 hs2

theorem matchedLeft_comm (a b : List Char) :
    matchedLeft b a = matchedRight a b := by
  unfold matchedLeft matchedRight
  rw [matchPairs_rev_eq_sorted_swap a b, List.map_map]
  rfl

theorem matchedRight_comm (a b : List Char) :
    matchedRight b a = matchedLeft a b := by
  unfold matchedLeft matchedRight
  rw [matchPairs_rev_sorted_eq_swap a b, List.map_map]
  rfl

theorem mismatches_comm : ∀ (x y : List Char),
    mismatches x y = mismatches y x := by
  intro x
  induction x with
  | nil => intro y; cases y <;> rfl
  | cons c cs ih =>
      intro y
      cases y with
      | nil => rfl
      | cons d ds =>
          unfold mismatches
          rw [ih ds]
          congr 1
          by_cases h : c = d
          · simp [h]
          · have h2 : ¬ d = c := fun hc => h hc.symm
            simp [h, h2]

theorem transpositions_comm (a b : List Char) :
    transpositions a b = transpositions b a := by
  unfold transpositions
  rw [matchedLeft_comm a b, matchedRight_comm a b, mismatches_comm]

theorem commonStartLen_comm : ∀ (x y : List Char),
    commonStartLen x y = commonStartLen y x := by
  intro x
  induction x with
  | nil => intro y; cases y <;> rfl
  | cons c cs ih =>
      intro y
      cases y with
      | nil => rfl
      | cons d ds =>
          unfold commonStartLen
          by_cases h : c = d
          · subst h
            rw [if_pos rfl, if_pos rfl, ih]
          · rw [if_neg h, if_neg fun hc => h hc.symm]

theorem jaro_comm (a b : List Char) : jaro a b = jaro b a := by
  unfold jaro
  rw [matchCount_comm, transpositions_comm]
  by_cases h : ((matchCount b a : ℚ)) = 0
  · simp [h]
  · simp only [h, if_false]
    ring

theorem jaroWinkler_comm (a b : List Char) :
    jaroWinkler a b = jaroWinkler b a := by
  unfold jaroWinkler
  rw [jaro_comm, commonStartLen_comm]
  by_cases h : a = [] ∧ b = []
  · rw [if_pos h, if_pos ⟨h.2, h.1⟩]
  · rw [if_neg h, if_neg fun hc => h ⟨hc.2, hc.1⟩]

theorem jaroWinkler_nil_left (b : List Char) (hb : b ≠ []) :
    jaroWinkler [] b = 0 := by
  have hne : ¬(([] : List Char) = [] ∧ b = []) := fun hx => hb hx.2
  unfold jaroWinkler
  rw [if_neg hne]
  have hjaro : jaro ([] : List Char) b = 0 := by
    unfold jaro
    have hm : matchCount ([] : List Char) b = 0 := rfl
    rw [hm]
    simp
  have hcsl : commonStartLen ([] : List Char) b = 0 := by
    cases b <;> rfl
  simp only [hjaro, hcsl]
  norm_num

/-! ### The data model and the search operations

The rows of the `regions` table built by cmd/ingestor/main.go.  The
`postal_code` column comes from a LEFT JOIN and is therefore nullable,
which the Go side sees as a possibly-NULL `driver.Value`. -/

theorem scanRegion_ok {r : FlatRegion} (h : r.postal_code ≠ none) :
    scanRegion r = Except.ok (toRegion r) := by
  rcases hpc : r.postal_code with _ | pc
  · exact absurd hpc h
  · simp [scanRegion, toRegion, hpc]

theorem scanRegions_ok {l : List FlatRegion}
    (h : ∀ r ∈ l, r.postal_code ≠ none) :
    scanRegions l = Except.ok (l.map toRegion) := by
  induction l with
  | nil => rfl
  | cons r rs ih =>
      unfold scanRegions
      rw [scanRegion_ok (h r (by simp)),
        ih fun x hx => h x (by simp [hx])]
      rfl

/-- Executing `WHERE pred ORDER BY rel LIMIT 10` followed by the row scan,
on a store without NULL postal codes: the result is the filtered rows,
sorted, capped at ten. -/
theorem searchPipeline_ok (store : List FlatRegion)
    (rel : FlatRegion → FlatRegion → Prop) [DecidableRel rel]
    (htot : ∀ a b, rel a b ∨ rel b a)
    (htrans : ∀ a b c, rel a b → rel b c → rel a c)
    (relR : Region → Region → Prop)
    (hrel : ∀ r q : FlatRegion, rel r q → relR (toRegion r) (toRegion q))
    (pred : FlatRegion → Bool)
    (hpost : ∀ r ∈ store, r.postal_code ≠ none) :
    ∃ res : List Region,
      scanRegions (List.take 10 (List.insertionSort rel
        (List.filter pred store))) = Except.ok res ∧
      res.length ≤ 10 ∧
      (∀ reg ∈ res, ∃ r, r ∈ store ∧ pred r = true ∧ toRegion r = reg) ∧
      res.Pairwise relR ∧
      (∀ r ∈ store, pred r = true → res.length = 10 ∨ toRegion r ∈ res) := by
  haveI : IsTotal FlatRegion rel := ⟨htot⟩
  haveI : IsTrans FlatRegion rel := ⟨htrans⟩
  have hperm : List.Perm (List.insertionSort rel (List.filter pred store))
      (List.filter pred store) := List.perm_insertionSort rel _
  have hsub : ∀ r ∈ List.take 10 (List.insertionSort rel
      (List.filter pred store)), r ∈ store ∧ pred r = true := by
    intro r hr
    have hr2 := List.take_subset 10 _ hr
    have hr3 := hperm.mem_iff.mp hr2
    have hr4 := List.mem_filter.mp hr3
    exact ⟨hr4.1, hr4.2⟩
  refine ⟨(List.take 10 (List.insertionSort rel
      (List.filter pred store))).map toRegion,
    scanRegions_ok fun r hr => hpost r (hsub r hr).1, ?_, ?_, ?_, ?_⟩
  · rw [List.length_map]
    exact List.length_take_le 10 _
  · intro reg hreg
    obtain ⟨r, hr, rfl⟩ := List.mem_map.mp hreg
    exact ⟨r, (hsub r hr).1, (hsub r hr).2, rfl⟩
  · apply List.pairwise_map.mpr
    have hsorted : (List.insertionSort rel
        (List.filter pred store)).Pairwise rel :=
      List.sorted_insertionSort rel _
    exact (List.Pairwise.sublist (List.take_sublist 10 _) hsorted).imp
      fun h => hrel _ _ h
  · intro r hr hpredr
    by_cases hlen : (List.filter pred store).length ≤ 10
    · right
      have hlen2 : (List.insertionSort rel
          (List.filter pred store)).length ≤ 10 := by
        rw [List.length_insertionSort]
        exact hlen
      rw [List.take_of_length_le hlen2]
      exact List.mem_map_of_mem toRegion
        (hperm.mem_iff.mpr (List.mem_filter.mpr ⟨hr, hpredr⟩))
    · left
      rw [List.length_map, List.length_take, List.length_insertionSort]
      omega

/-! ### The Denormalizer (cmd/ingestor/main.go) -/

/-- A row of the raw `wilayah` table. -/
theorem jwStr_self (s : String) : jwStr s s = 1 := jaroWinkler_self s.data

/-! ### Claim theorems -/

/-- C6: for every raw input, the query normalizer returns the result of
lowercasing, deleting every character that is not an ASCII letter, digit or
space, capitalizing the first letter of every whitespace-delimited token,
and trimming; and the four pinned examples hold. -/
theorem C6_sanitizeQuery_follows_spec :
    (∀ s : String, sanitizeQuery s = specNormalize s) ∧
    sanitizeQuery "jakarta" = "Jakarta" ∧
    sanitizeQuery "jakarta barat" = "Jakarta Barat" ∧
    sanitizeQuery "jakarta-barat" = "Jakartabarat" ∧
    sanitizeQuery "" = "" :=
  ⟨sanitizeQuery_eq_specNormalize, by decide, by decide, by decide, by decide⟩

/-- C7: the Jaro-Winkler score always lies in `[0, 1]` and equals `1`
exactly for identical strings; two empty strings score `1`, and the empty
string scores `0` against any non-empty string. -/
theorem C7_jaroWinkler_range_identity :
    ∀ s t : String,
      (0 ≤ jwStr s t ∧ jwStr s t ≤ 1) ∧
      (jwStr s t = 1 ↔ s = t) ∧
      jwStr "" "" = 1 ∧
      (t ≠ "" → jwStr "" t = 0) := by
  intro s t
  refine ⟨⟨jaroWinkler_nonneg s.data t.data, jaroWinkler_le_one s.data t.data⟩,
    ?_, ?_, ?_⟩
  · rw [jwStr, jaroWinkler_eq_one_iff]
    exact ⟨fun h => String.ext h, fun h => congrArg String.data h⟩
  · rfl
  · intro ht
    apply jaroWinkler_nil_left t.data
    intro hd
    exact ht (String.ext hd)

/-- C7, applied at concrete strings: bounds, the identity criterion, and
the empty-string scores, with the non-emptiness hypothesis discharged. -/
theorem C7_witness :
    (0 ≤ jwStr "abc" "abd" ∧ jwStr "abc" "abd" ≤ 1) ∧
    (jwStr "abc" "abd" = 1 ↔ "abc" = "abd") ∧
    jwStr "" "" = 1 ∧ jwStr "" "abd" = 0 :=
  ⟨(C7_jaroWinkler_range_identity "abc" "abd").1,
    (C7_jaroWinkler_range_identity "abc" "abd").2.1,
    (C7_jaroWinkler_range_identity "abc" "abd").2.2.1,
    (C7_jaroWinkler_range_identity "abc" "abd").2.2.2 (by decide)⟩

/-- C8: the Jaro-Winkler similarity is symmetric, and so are its
underlying greedy match count `m` and transposition count `t`. -/
theorem C8_jaroWinkler_symm :
    ∀ a b : String,
      jwStr a b = jwStr b a ∧
      matchCount a.data b.data = matchCount b.data a.data ∧
      transpositions a.data b.data = transpositions b.data a.data :=
  fun a b =>
    ⟨jaroWinkler_comm a.data b.data, matchCount_comm a.data b.data,
      transpositions_comm a.data b.data⟩

/-- C2: every operation rejects an empty required parameter with
InvalidInput for any store; postal-code search rejects any input that is
not exactly five ASCII digits and fails with NotFound on zero matches;
every other operation returns an empty list, not an error, on zero
matches. -/
theorem C2_validation_and_error_paths :
    (∀ store : List FlatRegion,
      Search store "" = Except.error ErrCode.invalidInput ∧
      SearchByDistrict store "" = Except.error ErrCode.invalidInput ∧
      SearchBySubdistrict store "" = Except.error ErrCode.invalidInput ∧
      SearchByCity store "" = Except.error ErrCode.invalidInput ∧
      SearchByProvince store "" = Except.error ErrCode.invalidInput ∧
      SearchByPostalCode store "" = Except.error ErrCode.invalidInput) ∧
    (∀ (store : List FlatRegion) (pc : String),
      ¬ (pc.length = 5 ∧ isNumeric pc = true) →
      SearchByPostalCode store pc = Except.error ErrCode.invalidInput) ∧
    (∀ (store : List FlatRegion) (pc : String),
      pc.length = 5 → isNumeric pc = true →
      List.filter (fun r : FlatRegion =>
        decide (r.postal_code = some pc)) store = [] →
      SearchByPostalCode store pc = Except.error ErrCode.notFound) ∧
    (∀ (store : List FlatRegion) (q : String), q ≠ "" →
      List.filter (fun r : FlatRegion =>
        containsCI r.full_text (sanitizeQuery q)) store = [] →
      Search store q = Except.ok []) ∧
    (∀ (store : List FlatRegion) (q : String), q ≠ "" →
      List.filter (fun r : FlatRegion =>
        decide ((4 : ℚ) / 5 ≤ jwStr r.district (sanitizeQuery q)))
        store = [] →
      SearchByDistrict store q = Except.ok []) ∧
    (∀ (store : List FlatRegion) (q : String), q ≠ "" →
      List.filter (fun r : FlatRegion =>
        decide ((4 : ℚ) / 5 ≤ jwStr r.subdistrict (sanitizeQuery q)))
        store = [] →
      SearchBySubdistrict store q = Except.ok []) ∧
    (∀ (store : List FlatRegion) (q : String), q ≠ "" →
      List.filter (fun r : FlatRegion =>
        decide ((4 : ℚ) / 5 ≤ jwStr r.city ("Kota " ++ sanitizeQuery q)) ||
        decide ((4 : ℚ) / 5 ≤
          jwStr r.city ("Kabupaten " ++ sanitizeQuery q))) store = [] →
      SearchByCity store q = Except.ok []) ∧
    (∀ (store : List FlatRegion) (q : String), q ≠ "" →
      List.filter (fun r : FlatRegion =>
        decide ((4 : ℚ) / 5 ≤ jwStr r.province (sanitizeQuery q)))
        store = [] →
      SearchByProvince store q = Except.ok []) := by
  refine ⟨fun store => ⟨rfl, rfl, rfl, rfl, rfl, rfl⟩, ?_, ?_, ?_, ?_, ?_,
    ?_, ?_⟩
  · intro store pc h
    by_cases hpc : pc = ""
    · subst hpc; rfl
    · unfold SearchByPostalCode
      rw [if_neg hpc, if_pos h]
  · intro store pc h5 hnum hfil
    have hne : pc ≠ "" := by
      intro h0
      subst h0
      simp at h5
    unfold SearchByPostalCode
    rw [if_neg hne, if_neg (not_not_intro ⟨h5, hnum⟩), hfil]
    rfl
  · intro store q hq hfil
    unfold Search
    rw [if_neg hq, hfil]
    rfl
  · intro store q hq hfil
    unfold SearchByDistrict
    rw [if_neg hq, hfil]
    rfl
  · intro store q hq hfil
    unfold SearchBySubdistrict
    rw [if_neg hq, hfil]
    rfl
  · intro store q hq hfil
    unfold SearchByCity
    rw [if_neg hq, hfil]
    rfl
  · intro store q hq hfil
    unfold SearchByProvince
    rw [if_neg hq, hfil]
    rfl

/-- C2 at concrete inputs: the empty query, a three-digit postal code, an
unmatched five-digit postal code, and an unmatched name query. -/
theorem C2_witness :
    Search [] "" = Except.error ErrCode.invalidInput ∧
    SearchByPostalCode [] "123" = Except.error ErrCode.invalidInput ∧
    SearchByPostalCode [] "12345" = Except.error ErrCode.notFound ∧
    Search [] "zzz" = Except.ok [] :=
  ⟨(C2_validation_and_error_paths.1 []).1,
    C2_validation_and_error_paths.2.1 [] "123" (by decide),
    C2_validation_and_error_paths.2.2.1 [] "12345" (by decide) (by decide)
      rfl,
    C2_validation_and_error_paths.2.2.2.1 [] "zzz" (by decide) rfl⟩

/-- Shape of every row produced by the denormalization query. -/
theorem ingest_mem {wilayah : List RawRegion} {kodepos : List RawPostal}
    {r : FlatRegion} (hr : r ∈ ingest wilayah kodepos) :
    ∃ sub dist city prov,
      sub ∈ wilayah ∧ dist ∈ wilayah ∧ city ∈ wilayah ∧ prov ∈ wilayah ∧
      sub.kode.length = 13 ∧
      dist.kode = sub.kode.take 8 ∧ city.kode = sub.kode.take 5 ∧
      prov.kode = sub.kode.take 2 ∧
      r.id = sub.kode ∧ r.subdistrict = sub.nama ∧ r.district = dist.nama ∧
      r.city = city.nama ∧ r.province = prov.nama ∧
      r.full_text = lowerStr (prov.nama ++ " " ++ city.nama ++ " " ++
        dist.nama ++ " " ++ sub.nama) := by
  unfold ingest at hr
  simp only [List.mem_flatMap, List.mem_filter, List.mem_map,
    decide_eq_true_eq] at hr
  obtain ⟨sub, ⟨hsubm, hsublen⟩, dist, ⟨hdistm, hdistk⟩, city,
    ⟨hcitym, hcityk⟩, prov, ⟨hprovm, hprovk⟩, pc, hpc, rfl⟩ := hr
  exact ⟨sub, dist, city, prov, hsubm, hdistm, hcitym, hprovm, hsublen,
    hdistk, hcityk, hprovk, rfl, rfl, rfl, rfl, rfl, rfl⟩

/-- C3: every denormalized row has a 13-character id, its names are the
names of raw records whose codes are exactly the 2/5/8-character prefixes
of the id (and the id itself), and its full text is the lowercase
space-joined concatenation of the four names. -/
theorem C3_denormalizer_row_shape :
    ∀ (wilayah : List RawRegion) (kodepos : List RawPostal)
      (r : FlatRegion), r ∈ ingest wilayah kodepos →
      r.id.length = 13 ∧
      ∃ p c d s, p ∈ wilayah ∧ c ∈ wilayah ∧ d ∈ wilayah ∧ s ∈ wilayah ∧
        p.kode = r.id.take 2 ∧ c.kode = r.id.take 5 ∧ d.kode = r.id.take 8 ∧
        s.kode = r.id ∧ r.province = p.nama ∧ r.city = c.nama ∧
        r.district = d.nama ∧ r.subdistrict = s.nama ∧
        r.full_text = lowerStr (p.nama ++ " " ++ c.nama ++ " " ++ d.nama ++
          " " ++ s.nama) := by
  intro w k r hr
  obtain ⟨sub, dist, city, prov, hsubm, hdistm, hcitym, hprovm, hsublen,
    hdistk, hcityk, hprovk, hid, hsubn, hdistn, hcityn, hprovn, hft⟩ :=
    ingest_mem hr
  rw [hid]
  exact ⟨hsublen, prov, city, dist, sub, hprovm, hcitym, hdistm, hsubm,
    hprovk, hcityk, hdistk, rfl, hprovn, hcityn, hdistn, hsubn, hft⟩

/-- C3 at a concrete four-record hierarchy: the produced row is in the
relation and its id has 13 characters. -/
theorem C3_witness :
    (⟨"11.01.01.2001", "Sub1", "Bandung", "Kota Bandung", "Jawa Barat",
      none, "jawa barat kota bandung bandung sub1"⟩ : FlatRegion) ∈
      ingest [⟨"11", "Jawa Barat"⟩, ⟨"11.01", "Kota Bandung"⟩,
        ⟨"11.01.01", "Bandung"⟩, ⟨"11.01.01.2001", "Sub1"⟩] [] ∧
    ("11.01.01.2001" : String).length = 13 :=
  ⟨by decide,
    (C3_denormalizer_row_shape [⟨"11", "Jawa Barat"⟩,
      ⟨"11.01", "Kota Bandung"⟩, ⟨"11.01.01", "Bandung"⟩,
      ⟨"11.01.01.2001", "Sub1"⟩] []
      ⟨"11.01.01.2001", "Sub1", "Bandung", "Kota Bandung", "Jawa Barat",
        none, "jawa barat kota bandung bandung sub1"⟩ (by decide)).1⟩

/-- C9 counterexample: a 13-character record whose ancestors are all
missing is silently dropped — the transformation still produces a (here
empty) relation and the ingestion completes with no error, where the claim
requires an abort. -/
theorem C9_counterexample :
    ("1234567890123" : String).length = 13 ∧
    ingest [⟨"1234567890123", "X"⟩] [] = [] := by
  exact ⟨by decide, by decide⟩

/-- C9 amended: a 13-character record with a missing district ancestor is
silently omitted from the produced relation (no row carries its id);
ingestion does not abort. -/
theorem C9_amended_silent_drop :
    ∀ (wilayah : List RawRegion) (kodepos : List RawPostal)
      (sub : RawRegion), sub.kode.length = 13 →
      (∀ d ∈ wilayah, d.kode ≠ sub.kode.take 8) →
      ∀ r ∈ ingest wilayah kodepos, r.id ≠ sub.kode := by
  intro w k sub hlen hmiss r hr heq
  obtain ⟨sub', dist, city, prov, hsubm, hdistm, _, _, _, hdistk, _, _,
    hid, _⟩ := ingest_mem hr
  apply hmiss dist hdistm
  rw [hdistk, ← hid, heq]

/-- C9 amended, at a concrete store holding one complete hierarchy and one
orphaned 13-character record: the produced row is not the orphan. -/
theorem C9_witness :
    (⟨"11.01.01.2001", "Sub1", "Bandung", "Kota Bandung", "Jawa Barat",
      none, "jawa barat kota bandung bandung sub1"⟩ : FlatRegion).id ≠
      "9999999999999" :=
  C9_amended_silent_drop
    [⟨"11", "Jawa Barat"⟩, ⟨"11.01", "Kota Bandung"⟩,
      ⟨"11.01.01", "Bandung"⟩, ⟨"11.01.01.2001", "Sub1"⟩,
      ⟨"9999999999999", "Orphan"⟩] [] ⟨"9999999999999", "Orphan"⟩
    (by decide) (by decide) _ (by decide)

/-- C5: a subdistrict with no postal record is emitted with a NULL
`postal_code` (the claim's first half holds), but the search layer then
fails to return it: the row matches the general-search predicate, yet the
operation fails with a database error because `scanRegions` cannot store
the NULL into `Region.PostalCode`. -/
theorem C5_null_postal_row_not_returned :
    ingest [⟨"11", "Jawa Barat"⟩, ⟨"11.01", "Kota Bandung"⟩,
        ⟨"11.01.01", "Bandung"⟩, ⟨"11.01.01.2001", "Sub1"⟩] [] =
      [⟨"11.01.01.2001", "Sub1", "Bandung", "Kota Bandung", "Jawa Barat",
        none, "jawa barat kota bandung bandung sub1"⟩] ∧
    containsCI "jawa barat kota bandung bandung sub1"
      (sanitizeQuery "sub1") = true ∧
    Search [⟨"11.01.01.2001", "Sub1", "Bandung", "Kota Bandung",
      "Jawa Barat", none, "jawa barat kota bandung bandung sub1"⟩]
      "sub1" = Except.error ErrCode.databaseFailure := by
  refine ⟨by decide, by decide, ?_⟩
  rfl

/-- A query all of whose characters still fall outside `[a-zA-Z0-9 ]`
after Go lowercasing sanitizes to the empty string. -/
theorem sanitizeQuery_eq_empty {q : String}
    (h : ∀ c ∈ q.data, isAllowedChar (lowerChar c) = false) :
    sanitizeQuery q = "" := by
  unfold sanitizeQuery sanitizeList goTitle
  have hfil : (q.data.map lowerChar).filter isAllowedChar = [] := by
    rw [List.filter_eq_nil_iff]
    intro a ha
    obtain ⟨c, hc, rfl⟩ := List.mem_map.mp ha
    simp [h c hc]
  rw [hfil]
  rfl

/-- `ILIKE '%' || '' || '%'` holds for every row: the empty pattern is an
infix of every text. -/
theorem containsCI_empty (text : String) : containsCI text "" = true :=
  decide_eq_true (List.nil_infix)

/-- The city search's two-key descending order is total. -/
theorem cityOrder_total (kota kab : FlatRegion → ℚ) :
    ∀ a b, cityOrder kota kab a b ∨ cityOrder kota kab b a := by
  intro a b
  rcases lt_trichotomy (kota b) (kota a) with h | h | h
  · exact Or.inl (Or.inl h)
  · rcases le_total (kab b) (kab a) with h2 | h2
    · exact Or.inl (Or.inr ⟨h, h2⟩)
    · exact Or.inr (Or.inr ⟨h.symm, h2⟩)
  · exact Or.inr (Or.inl h)

/-- The city search's two-key descending order is transitive. -/
theorem cityOrder_trans (kota kab : FlatRegion → ℚ) :
    ∀ a b c, cityOrder kota kab a b → cityOrder kota kab b c →
      cityOrder kota kab a c := by
  intro a b c h1 h2
  rcases h1 with h1 | ⟨h1e, h1le⟩
  · rcases h2 with h2 | ⟨h2e, _⟩
    · exact Or.inl (lt_trans h2 h1)
    · exact Or.inl (lt_of_le_of_lt (le_of_eq h2e) h1)
  · rcases h2 with h2 | ⟨h2e, h2le⟩
    · exact Or.inl (lt_of_lt_of_le h2 (le_of_eq h1e))
    · exact Or.inr ⟨h2e.trans h1e, le_trans h2le h1le⟩

/-- C1 counterexample: a store whose single row matches the district
predicate exactly (similarity 1), yet the operation returns a database
failure instead of that row, because the row's NULL postal code cannot be
scanned. -/
theorem C1_counterexample :
    (4 : ℚ) / 5 ≤ jwStr
      (⟨"1", "s", "Bandung", "c", "p", none, "t"⟩ : FlatRegion).district
      (sanitizeQuery "Bandung") ∧
    SearchByDistrict [⟨"1", "s", "Bandung", "c", "p", none, "t"⟩]
      "Bandung" = Except.error ErrCode.databaseFailure := by
  have hsan : sanitizeQuery "Bandung" = "Bandung" := by decide
  have hsim : (4 : ℚ) / 5 ≤ jwStr "Bandung" (sanitizeQuery "Bandung") := by
    rw [hsan, jwStr_self]
    norm_num
  have hpred : decide ((4 : ℚ) / 5 ≤ jwStr
      (⟨"1", "s", "Bandung", "c", "p", none, "t"⟩ : FlatRegion).district
      (sanitizeQuery "Bandung")) = true := decide_eq_true hsim
  refine ⟨hsim, ?_⟩
  unfold SearchByDistrict
  rw [if_neg (by decide : ¬("Bandung" : String) = "")]
  have hfil : List.filter
      (fun r : FlatRegion =>
        decide ((4 : ℚ) / 5 ≤ jwStr r.district (sanitizeQuery "Bandung")))
      [⟨"1", "s", "Bandung", "c", "p", none, "t"⟩] =
      [⟨"1", "s", "Bandung", "c", "p", none, "t"⟩] := by
    simp only [List.filter_cons, List.filter_nil]
    rw [hpred]
    rfl
  rw [hfil]
  rfl

/-- C1 amended: on a store with no NULL postal codes, each per-field search
(district, subdistrict, province) returns rows drawn from the store that
pass the 0.8 threshold on that field, sorted by descending similarity,
capped at ten, and omits no qualifying row unless the cap is reached. -/
theorem C1_per_field_search_amended :
    ∀ (store : List FlatRegion) (q : String), q ≠ "" →
      (∀ r ∈ store, r.postal_code ≠ none) →
      (∃ res : List Region, SearchByDistrict store q = Except.ok res ∧
        res.length ≤ 10 ∧
        (∀ reg ∈ res, ∃ r, r ∈ store ∧
          (4 : ℚ) / 5 ≤ jwStr r.district (sanitizeQuery q) ∧
          toRegion r = reg) ∧
        res.Pairwise (fun x y : Region =>
          jwStr y.district (sanitizeQuery q) ≤
            jwStr x.district (sanitizeQuery q)) ∧
        (∀ r ∈ store, (4 : ℚ) / 5 ≤ jwStr r.district (sanitizeQuery q) →
          res.length = 10 ∨ toRegion r ∈ res)) ∧
      (∃ res : List Region, SearchBySubdistrict store q = Except.ok res ∧
        res.length ≤ 10 ∧
        (∀ reg ∈ res, ∃ r, r ∈ store ∧
          (4 : ℚ) / 5 ≤ jwStr r.subdistrict (sanitizeQuery q) ∧
          toRegion r = reg) ∧
        res.Pairwise (fun x y : Region =>
          jwStr y.subdistrict (sanitizeQuery q) ≤
            jwStr x.subdistrict (sanitizeQuery q)) ∧
        (∀ r ∈ store, (4 : ℚ) / 5 ≤ jwStr r.subdistrict (sanitizeQuery q) →
          res.length = 10 ∨ toRegion r ∈ res)) ∧
      (∃ res : List Region, SearchByProvince store q = Except.ok res ∧
        res.length ≤ 10 ∧
        (∀ reg ∈ res, ∃ r, r ∈ store ∧
          (4 : ℚ) / 5 ≤ jwStr r.province (sanitizeQuery q) ∧
          toRegion r = reg) ∧
        res.Pairwise (fun x y : Region =>
          jwStr y.province (sanitizeQuery q) ≤
            jwStr x.province (sanitizeQuery q)) ∧
        (∀ r ∈ store, (4 : ℚ) / 5 ≤ jwStr r.province (sanitizeQuery q) →
          res.length = 10 ∨ toRegion r ∈ res)) := by
  intro store q hq hpost
  refine ⟨?_, ?_, ?_⟩
  · unfold SearchByDistrict
    rw [if_neg hq]
    obtain ⟨res, h1, h2, h3, h4, h5⟩ := searchPipeline_ok store
      (simDescBy fun r : FlatRegion => jwStr r.district (sanitizeQuery q))
      (fun a b => le_total _ _)
      (fun a b c hab hbc => le_trans hbc hab)
      (fun x y : Region =>
        jwStr y.district (sanitizeQuery q) ≤
          jwStr x.district (sanitizeQuery q))
      (fun r s h => h)
      (fun r : FlatRegion =>
        decide ((4 : ℚ) / 5 ≤ jwStr r.district (sanitizeQuery q)))
      hpost
    refine ⟨res, h1, h2, ?_, h4, ?_⟩
    · intro reg hreg
      obtain ⟨r, hr, hpred, heq⟩ := h3 reg hreg
      exact ⟨r, hr, of_decide_eq_true hpred, heq⟩
    · intro r hr hsim
      exact h5 r hr (decide_eq_true hsim)
  · unfold SearchBySubdistrict
    rw [if_neg hq]
    obtain ⟨res, h1, h2, h3, h4, h5⟩ := searchPipeline_ok store
      (simDescBy fun r : FlatRegion =>
        jwStr r.subdistrict (sanitizeQuery q))
      (fun a b => le_total _ _)
      (fun a b c hab hbc => le_trans hbc hab)
      (fun x y : Region =>
        jwStr y.subdistrict (sanitizeQuery q) ≤
          jwStr x.subdistrict (sanitizeQuery q))
      (fun r s h => h)
      (fun r : FlatRegion =>
        decide ((4 : ℚ) / 5 ≤ jwStr r.subdistrict (sanitizeQuery q)))
      hpost
    refine ⟨res, h1, h2, ?_, h4, ?_⟩
    · intro reg hreg
      obtain ⟨r, hr, hpred, heq⟩ := h3 reg hreg
      exact ⟨r, hr, of_decide_eq_true hpred, heq⟩
    · intro r hr hsim
      exact h5 r hr (decide_eq_true hsim)
  · unfold SearchByProvince
    rw [if_neg hq]
    obtain ⟨res, h1, h2, h3, h4, h5⟩ := searchPipeline_ok store
      (simDescBy fun r : FlatRegion => jwStr r.province (sanitizeQuery q))
      (fun a b => le_total _ _)
      (fun a b c hab hbc => le_trans hbc hab)
      (fun x y : Region =>
        jwStr y.province (sanitizeQuery q) ≤
          jwStr x.province (sanitizeQuery q))
      (fun r s h => h)
      (fun r : FlatRegion =>
        decide ((4 : ℚ) / 5 ≤ jwStr r.province (sanitizeQuery q)))
      hpost
    refine ⟨res, h1, h2, ?_, h4, ?_⟩
    · intro reg hreg
      obtain ⟨r, hr, hpred, heq⟩ := h3 reg hreg
      exact ⟨r, hr, of_decide_eq_true hpred, heq⟩
    · intro r hr hsim
      exact h5 r hr (decide_eq_true hsim)

/-- C1 amended, at a concrete NULL-free store: the district search
succeeds and returns at most ten rows. -/
theorem C1_witness :
    ∃ res : List Region,
      SearchByDistrict
        [⟨"1", "s", "Bandung", "c", "p", some "11111", "t"⟩] "Bandung" =
        Except.ok res ∧ res.length ≤ 10 := by
  obtain ⟨⟨res, h1, h2, _, _, _⟩, _, _⟩ :=
    C1_per_field_search_amended
      [⟨"1", "s", "Bandung", "c", "p", some "11111", "t"⟩] "Bandung"
      (by decide) (by decide)
  exact ⟨res, h1, h2⟩

/-- C4 counterexample: a store whose single row matches the city predicate
exactly under the `Kota` prefix, yet the operation returns a database
failure instead of that row, because the row's NULL postal code cannot be
scanned. -/
theorem C4_counterexample :
    (4 : ℚ) / 5 ≤ jwStr
      (⟨"1", "s", "d", "Kota Bandung", "p", none, "t"⟩ : FlatRegion).city
      ("Kota " ++ sanitizeQuery "bandung") ∧
    SearchByCity [⟨"1", "s", "d", "Kota Bandung", "p", none, "t"⟩]
      "bandung" = Except.error ErrCode.databaseFailure := by
  have hk : ("Kota " ++ sanitizeQuery "bandung" : String) = "Kota Bandung" :=
    by decide
  have hsim : (4 : ℚ) / 5 ≤
      jwStr "Kota Bandung" ("Kota " ++ sanitizeQuery "bandung") := by
    rw [hk, jwStr_self]
    norm_num
  have hpred : (decide ((4 : ℚ) / 5 ≤ jwStr
      (⟨"1", "s", "d", "Kota Bandung", "p", none, "t"⟩ : FlatRegion).city
      ("Kota " ++ sanitizeQuery "bandung")) ||
      decide ((4 : ℚ) / 5 ≤ jwStr
        (⟨"1", "s", "d", "Kota Bandung", "p", none, "t"⟩ : FlatRegion).city
        ("Kabupaten " ++ sanitizeQuery "bandung"))) = true := by
    rw [decide_eq_true hsim]
    exact Bool.true_or _
  refine ⟨hsim, ?_⟩
  unfold SearchByCity
  rw [if_neg (by decide : ¬("bandung" : String) = "")]
  have hfil : List.filter
      (fun r : FlatRegion =>
        decide ((4 : ℚ) / 5 ≤
          jwStr r.city ("Kota " ++ sanitizeQuery "bandung")) ||
        decide ((4 : ℚ) / 5 ≤
          jwStr r.city ("Kabupaten " ++ sanitizeQuery "bandung")))
      [⟨"1", "s", "d", "Kota Bandung", "p", none, "t"⟩] =
      [⟨"1", "s", "d", "Kota Bandung", "p", none, "t"⟩] := by
    simp only [List.filter_cons, List.filter_nil]
    rw [hpred]
    rfl
  rw [hfil]
  rfl

/-- C4 amended: on a store with no NULL postal codes, the city search
returns rows drawn from the store that pass the 0.8 threshold under the
`Kota` or the `Kabupaten` prefix, ordered by descending `Kota` similarity
and then descending `Kabupaten` similarity, capped at ten, omitting no
qualifying row unless the cap is reached. -/
theorem C4_city_search_amended :
    ∀ (store : List FlatRegion) (q : String), q ≠ "" →
      (∀ r ∈ store, r.postal_code ≠ none) →
      ∃ res : List Region, SearchByCity store q = Except.ok res ∧
        res.length ≤ 10 ∧
        (∀ reg ∈ res, ∃ r, r ∈ store ∧
          ((4 : ℚ) / 5 ≤ jwStr r.city ("Kota " ++ sanitizeQuery q) ∨
           (4 : ℚ) / 5 ≤ jwStr r.city ("Kabupaten " ++ sanitizeQuery q)) ∧
          toRegion r = reg) ∧
        res.Pairwise (fun x y : Region =>
          jwStr y.city ("Kota " ++ sanitizeQuery q) <
            jwStr x.city ("Kota " ++ sanitizeQuery q) ∨
          (jwStr y.city ("Kota " ++ sanitizeQuery q) =
            jwStr x.city ("Kota " ++ sanitizeQuery q) ∧
           jwStr y.city ("Kabupaten " ++ sanitizeQuery q) ≤
            jwStr x.city ("Kabupaten " ++ sanitizeQuery q))) ∧
        (∀ r ∈ store,
          ((4 : ℚ) / 5 ≤ jwStr r.city ("Kota " ++ sanitizeQuery q) ∨
           (4 : ℚ) / 5 ≤ jwStr r.city ("Kabupaten " ++ sanitizeQuery q)) →
          res.length = 10 ∨ toRegion r ∈ res) := by
  intro store q hq hpost
  unfold SearchByCity
  rw [if_neg hq]
  obtain ⟨res, h1, h2, h3, h4, h5⟩ := searchPipeline_ok store
    (cityOrder
      (fun r : FlatRegion => jwStr r.city ("Kota " ++ sanitizeQuery q))
      (fun r : FlatRegion => jwStr r.city ("Kabupaten " ++ sanitizeQuery q)))
    (cityOrder_total _ _)
    (cityOrder_trans _ _)
    (fun x y : Region =>
      jwStr y.city ("Kota " ++ sanitizeQuery q) <
        jwStr x.city ("Kota " ++ sanitizeQuery q) ∨
      (jwStr y.city ("Kota " ++ sanitizeQuery q) =
        jwStr x.city ("Kota " ++ sanitizeQuery q) ∧
       jwStr y.city ("Kabupaten " ++ sanitizeQuery q) ≤
        jwStr x.city ("Kabupaten " ++ sanitizeQuery q)))
    (fun r s h => h)
    (fun r : FlatRegion =>
      decide ((4 : ℚ) / 5 ≤ jwStr r.city ("Kota " ++ sanitizeQuery q)) ||
      decide ((4 : ℚ) / 5 ≤ jwStr r.city ("Kabupaten " ++ sanitizeQuery q)))
    hpost
  refine ⟨res, h1, h2, ?_, h4, ?_⟩
  · intro reg hreg
    obtain ⟨r, hr, hpred, heq⟩ := h3 reg hreg
    refine ⟨r, hr, ?_, heq⟩
    rcases Bool.or_eq_true_iff.mp hpred with h | h
    · exact Or.inl (of_decide_eq_true h)
    · exact Or.inr (of_decide_eq_true h)
  · intro r hr hsim
    apply h5 r hr
    rcases hsim with h | h
    · rw [decide_eq_true h]
      exact Bool.true_or _
    · rw [decide_eq_true h]
      exact Bool.or_true _

/-- C4 amended, at a concrete NULL-free store: the city search succeeds
and returns at most ten rows. -/
theorem C4_witness :
    ∃ res : List Region,
      SearchByCity
        [⟨"1", "s", "d", "Kota Bandung", "p", some "11111", "t"⟩]
        "bandung" = Except.ok res ∧ res.length ≤ 10 := by
  obtain ⟨res, h1, h2, _, _, _⟩ :=
    C4_city_search_amended
      [⟨"1", "s", "d", "Kota Bandung", "p", some "11111", "t"⟩] "bandung"
      (by decide) (by decide)
  exact ⟨res, h1, h2⟩

/-- C10 counterexample: a query of only disallowed characters does reach
the store — but on a store holding a NULL postal code, the operation
returns a database failure instead of the first ten rows. -/
theorem C10_counterexample :
    Search [⟨"1", "s", "d", "c", "p", none, "t"⟩] "!!!" =
      Except.error ErrCode.databaseFailure := by
  rfl

/-- C10 amended: a non-empty query whose characters all remain outside
`[a-zA-Z0-9 ]` after Go lowercasing (this excludes U+0130 and U+212A,
which lowercase into ASCII letters) is not rejected; it normalizes to the
empty string, the substring predicate then keeps every row, and on a store
with no NULL postal codes the search returns the first ten rows in
ascending `full_text` order. -/
theorem C10_nonalnum_query_amended :
    ∀ (store : List FlatRegion) (q : String), q ≠ "" →
      (∀ c ∈ q.data, isAllowedChar (lowerChar c) = false) →
      (∀ r ∈ store, r.postal_code ≠ none) →
      sanitizeQuery q = "" ∧
      List.filter (fun r : FlatRegion =>
        containsCI r.full_text (sanitizeQuery q)) store = store ∧
      Search store q = Except.ok (List.map toRegion
        (List.take 10 (List.insertionSort fullTextLe store))) := by
  intro store q hq hc hpost
  have hsan : sanitizeQuery q = "" := sanitizeQuery_eq_empty hc
  have hfil : List.filter (fun r : FlatRegion =>
      containsCI r.full_text (sanitizeQuery q)) store = store := by
    rw [List.filter_eq_self]
    intro r _
    rw [hsan]
    exact containsCI_empty r.full_text
  refine ⟨hsan, hfil, ?_⟩
  unfold Search
  rw [if_neg hq, hfil]
  apply scanRegions_ok
  intro r hr
  exact hpost r ((List.perm_insertionSort fullTextLe store).mem_iff.mp
    (List.take_subset 10 _ hr))

/-- C10 amended, at the concrete query `!!!` on a one-row NULL-free
store. -/
theorem C10_witness :
    sanitizeQuery "!!!" = "" ∧
    List.filter (fun r : FlatRegion =>
      containsCI r.full_text (sanitizeQuery "!!!"))
      [⟨"1", "s", "d", "c", "p", some "11111", "t"⟩] =
      [⟨"1", "s", "d", "c", "p", some "11111", "t"⟩] ∧
    Search [⟨"1", "s", "d", "c", "p", some "11111", "t"⟩] "!!!" =
      Except.ok (List.map toRegion (List.take 10 (List.insertionSort
        fullTextLe [⟨"1", "s", "d", "c", "p", some "11111", "t"⟩]))) :=
  C10_nonalnum_query_amended
    [⟨"1", "s", "d", "c", "p", some "11111", "t"⟩] "!!!"
    (by decide) (by decide) (by decide)

end Wilayah
